/- Verification of the media dubbing and text-overlay pipeline of the
   shanghai-discovery repository.

   The JavaScript sources are shallowly embedded: durations, timestamps and
   pixel measures are rationals (ℚ); external services (Whisper, ElevenLabs,
   the vision OCR, the generative classifier and editor, the filesystem and
   ffmpeg) are oracle parameters; fallible code returns Except/Option.  Every
   definition is translated from the source file named in its doc comment. -/
import Mathlib

namespace ShanghaiDiscovery

/-! ## Character and string primitives shared across the embedding -/

/-- The single-quote character, written by code point to keep the source
plain. -/
def squote : Char := Char.ofNat 39

/-- The double-quote character. -/
def dquote : Char := Char.ofNat 34

/-- JavaScript/JSON whitespace (space, tab, newline, carriage return). -/
def isJsonWs (c : Char) : Bool :=
  c = ' ' ∨ c = '\n' ∨ c = '\r' ∨ c = '\t'

/-- Embeds `s.trim()`: drop whitespace from both ends. -/
def jsTrim (s : String) : String :=
  String.mk (((s.toList.dropWhile isJsonWs).reverse.dropWhile isJsonWs).reverse)

/-- Splitter for `text.split(' ')`: split at every single space, keeping
empty pieces, `""` splitting to `[""]`. -/
def splitSpaceGo : List Char → List Char → List String
  | [], acc => [String.mk acc.reverse]
  | c :: cs, acc =>
      if c = ' ' then String.mk acc.reverse :: splitSpaceGo cs []
      else splitSpaceGo cs (c :: acc)

/-- Embeds `text.split(' ')`. -/
def jsSplitSpace (s : String) : List String :=
  splitSpaceGo s.toList []

/-! ## Video dubbing data model

Segments as they flow through the dubbing pipeline
(`scripts/video-processing/*.mjs`).  The JavaScript field `end` is a Lean
keyword and is rendered `stop`; the TTS failure field `error` is rendered
`ttsError`. -/

/-- A Whisper transcription segment after the mapping in `transcribeAudio`
(`replace-audio.mjs`): `{ text: seg.text.trim(), start, end }`. -/
structure TranscriptSeg where
  text : String
  start : ℚ
  stop : ℚ
deriving Repr

/-- Output record of `translateSegments` (`translate-segments.mjs` lines
69-75 / 93-99): `{ chinese, english, start, end, duration }`. -/
structure TranslatedSegment where
  chinese : String
  english : String
  start : ℚ
  stop : ℚ
  duration : ℚ
deriving Repr

/-- Output record of `generateAllSegments` (`text-to-speech.mjs` lines
96-100 / 114-119): the translated segment spread together with
`audioPath` (`null` on failure), `audioDuration` and, on failure, `error`. -/
structure TtsSegment extends TranslatedSegment where
  audioPath : Option String
  audioDuration : ℚ
  ttsError : Option String
deriving Repr

/-- Output record of `syncAudioTiming` (`sync-audio.mjs`).  The fields that a
given branch of the source does not set are `none` (a JavaScript object
simply lacks them).  The warning string of the source interpolates the
computed ratio via `toFixed(2)`; the embedding keeps the exact rational that
the warning records. -/
structure SyncedSegment extends TtsSegment where
  adjustedAudioPath : Option String
  speedAdjustment : Option ℚ
  adjusted : Option Bool
  warning : Option ℚ
  silencePadding : Option ℚ
deriving Repr

/-! ## sync-audio.mjs -/

/-- One iteration of the `syncAudioTiming` loop (`sync-audio.mjs` lines
52-135).  `audioPath = none` stands for the source's skip condition
`!segment.audioPath || !fs.existsSync(segment.audioPath)`; the branch
pushes the segment unchanged.  Otherwise the decision is driven by
`ratio = audioDuration / originalDuration` exactly as in the source's
`if / else if / else if / else` chain. -/
def syncSegment (outputDir : String) (i : ℕ) (segment : TtsSegment) :
    SyncedSegment :=
  match segment.audioPath with
  | none =>
      { toTtsSegment := segment, adjustedAudioPath := none,
        speedAdjustment := none, adjusted := none,
        warning := none, silencePadding := none }
  | some audioPath =>
      let originalDuration := segment.duration
      let audioDuration := segment.audioDuration
      let r := audioDuration / originalDuration
      if 0.95 ≤ r ∧ r ≤ 1.05 then
        -- perfect timing, no adjustment needed; reuse the original file
        { toTtsSegment := segment, adjustedAudioPath := some audioPath,
          speedAdjustment := some 1, adjusted := some false,
          warning := none, silencePadding := none }
      else if 1.05 < r ∧ r ≤ 1.5 then
        -- too long: speed up by exactly the ratio
        { toTtsSegment := segment,
          adjustedAudioPath := some (outputDir ++ "/adjusted_" ++ toString i ++ ".mp3"),
          speedAdjustment := some r, adjusted := some true,
          warning := none, silencePadding := none }
      else if 1.5 < r then
        -- way too long: hard cap at 1.5x and record the ratio in a warning
        { toTtsSegment := segment,
          adjustedAudioPath := some (outputDir ++ "/adjusted_" ++ toString i ++ ".mp3"),
          speedAdjustment := some 1.5, adjusted := some true,
          warning := some r, silencePadding := none }
      else
        -- too short: pad the end with silence for the shortfall
        { toTtsSegment := segment,
          adjustedAudioPath := some (outputDir ++ "/adjusted_" ++ toString i ++ ".mp3"),
          speedAdjustment := some 1, adjusted := some true,
          warning := none,
          silencePadding := some (originalDuration - audioDuration) }

/-- The `for` loop of `syncAudioTiming`, pushing one result per segment. -/
def syncAudioTimingGo (outputDir : String) : ℕ → List TtsSegment → List SyncedSegment
  | _, [] => []
  | i, segment :: rest =>
      syncSegment outputDir i segment :: syncAudioTimingGo outputDir (i + 1) rest

/-- Embeds `syncAudioTiming(segments, outputDir)` (`sync-audio.mjs` lines 41-140). -/
def syncAudioTiming (segments : List TtsSegment) (outputDir : String) :
    List SyncedSegment :=
  syncAudioTimingGo outputDir 0 segments

/-! ## text-to-speech.mjs : assembleAudioTrack

The observable of interest is the duration of the assembled track: the
concat demuxer output lasts the sum of its input clips.  `fileDuration`
is the oracle giving each adjusted-audio file's duration on disk, and
`generateSilence` is taken to produce a clip of exactly the requested
duration (the source rounds with `toFixed(3)`; the tolerance analysis below
is independent of that rounding). -/

/-- Fields of a synced segment that `assembleAudioTrack` reads. -/
structure AssembledSegment where
  adjustedAudioPath : Option String
  start : ℚ
  stop : ℚ
deriving Repr

/-- The segment loop of `assembleAudioTrack` (`text-to-speech.mjs` lines
267-297): returns the durations of the clips appended to the concat list and
the final `currentTime`.  A segment without audio is skipped and does not
advance `currentTime`; a silence clip is generated only when the gap before
the segment exceeds 10 ms. -/
def assembleDurs (fileDuration : String → ℚ) :
    List AssembledSegment → ℚ → List ℚ × ℚ
  | [], currentTime => ([], currentTime)
  | seg :: rest, currentTime =>
      match seg.adjustedAudioPath with
      | none => assembleDurs fileDuration rest currentTime
      | some p =>
          let silenceBefore := seg.start - currentTime
          let tailState := assembleDurs fileDuration rest seg.stop
          ((if silenceBefore > 0.01 then [silenceBefore] else []) ++
              fileDuration p :: tailState.1,
            tailState.2)

/-- Total duration of the track written by `assembleAudioTrack`
(`text-to-speech.mjs` lines 258-334): the segment loop's clips plus the
final silence, which is appended only when `videoDuration - currentTime`
exceeds 10 ms. -/
def assembleAudioTrackDuration (fileDuration : String → ℚ)
    (segments : List AssembledSegment) (videoDuration : ℚ) : ℚ :=
  let loopOut := assembleDurs fileDuration segments 0
  let finalSilence := videoDuration - loopOut.2
  loopOut.1.sum + (if finalSilence > 0.01 then finalSilence else 0)

/-- Well-formedness of the segment timeline relative to a running clock:
each segment starts exactly at the clock or more than 10 ms after it
(so the skipped-silence tolerance of `assembleAudioTrack` loses nothing),
and the clock then advances to the segment's end. -/
def gapsAligned : ℚ → List AssembledSegment → Prop
  | _, [] => True
  | t, seg :: rest =>
      (seg.start = t ∨ seg.start - t > 0.01) ∧ gapsAligned seg.stop rest

/-! ## replace-audio.mjs : transcribeAudio -/

/-- A raw Whisper segment in the `verbose_json` response. -/
structure WhisperSegment where
  text : String
  start : ℚ
  stop : ℚ
deriving Repr

/-- The fields of the Whisper `verbose_json` response that `transcribeAudio`
reads, each possibly absent (the source defaults them with `||`). -/
structure WhisperResp where
  language : Option String
  duration : Option ℚ
  segments : Option (List WhisperSegment)
deriving Repr

/-- One attempt of the Whisper call: either a response or a thrown error
carrying an optional HTTP status. -/
inductive WhisperOutcome where
  | ok (resp : WhisperResp)
  | err (status : Option ℕ) (message : String)

/-- The value `transcribeAudio` returns on success (`replace-audio.mjs`
lines 255-282). -/
structure TranscribeOk where
  segments : List TranscriptSeg
  language : String
  duration : ℚ
  cost : ℚ
deriving Repr

/-- Result of `transcribeAudio`, recording how many API calls were made.
`invalidInput` covers the pre-loop throws (missing key, missing file,
oversize file); `badRequest` is the immediate re-throw on a 400;
`failed` is the throw after the retry cap. -/
inductive TranscribeResult where
  | success (value : TranscribeOk) (apiCalls : ℕ)
  | badRequest (message : String) (apiCalls : ℕ)
  | failed (message : String) (apiCalls : ℕ)
  | invalidInput (message : String)

/-- Embeds `MAX_RETRIES` (`replace-audio.mjs` line 229). -/
def MAX_RETRIES : ℕ := 3

/-- Backoff waited before retry attempt `a` (`replace-audio.mjs` line 237):
`2000 * Math.pow(2, attempt - 1)` milliseconds. -/
def retryDelayMs (attempt : ℕ) : ℕ := 2000 * 2 ^ (attempt - 1)

/-- STEP 4 of `transcribeAudio`: map a response to the returned value
(`replace-audio.mjs` lines 255-282), with `language || 'unknown'`,
`duration || 0`, `segments || []`, trimmed texts and the cost formula
`duration / 60 * 0.006`. -/
def parseWhisperResp (resp : WhisperResp) : TranscribeOk :=
  let detectedLanguage := resp.language.getD "unknown"
  let duration := resp.duration.getD 0
  let segments := (resp.segments.getD []).map
    (fun seg => { text := jsTrim seg.text, start := seg.start, stop := seg.stop })
  { segments := segments, language := detectedLanguage, duration := duration,
    cost := duration / 60 * 0.006 }

/-- The retry loop of `transcribeAudio` (`replace-audio.mjs` lines 232-301).
`attempt` is the 1-based attempt counter, `remaining` the attempts left,
`lastMsg` the captured `lastError` message.  A status-400 error is rethrown
at once; other errors retry until the cap, after which the aggregate error
is thrown. -/
def transcribeAux (oracle : ℕ → WhisperOutcome) :
    ℕ → ℕ → String → TranscribeResult
  | _, 0, lastMsg => .failed lastMsg MAX_RETRIES
  | attempt, remaining + 1, _ =>
      match oracle attempt with
      | .ok resp => .success (parseWhisperResp resp) attempt
      | .err status message =>
          if status = some 400 then .badRequest message attempt
          else transcribeAux oracle (attempt + 1) remaining message

/-- Embeds `transcribeAudio(audioPath)` (`replace-audio.mjs` lines 185-302).
`hasApiKey`, `fileExists` and `sizeMB` stand for the pre-loop validation
reads; `oracle` gives the outcome of the `attempt`-th Whisper call. -/
def transcribeAudio (hasApiKey fileExists : Bool) (sizeMB : ℚ)
    (oracle : ℕ → WhisperOutcome) : TranscribeResult :=
  if ¬hasApiKey then .invalidInput "OPENAI_API_KEY not found in .env file"
  else if ¬fileExists then .invalidInput "Audio file not found"
  else if sizeMB > 25 then .invalidInput "Whisper API limit is 25MB"
  else transcribeAux oracle 1 MAX_RETRIES ""

/-! ## translate-segments.mjs -/

/-- Embeds `translation.replace(/^["']|["']$/g, '')` (`translate-segments.mjs`
line 183): drop one leading and one trailing quote character. -/
def jsStripOuterQuotes (s : String) : String :=
  let cs := s.toList
  let cs := if cs.head? = some dquote ∨ cs.head? = some squote then cs.tail else cs
  let cs := if cs.getLast? = some dquote ∨ cs.getLast? = some squote then cs.dropLast else cs
  String.mk cs

/-- Body of `translateSegment` after the API call (`translate-segments.mjs`
lines 180-185): trim the content and strip stray quotes. -/
def cleanTranslation (content : String) : String :=
  jsStripOuterQuotes (jsTrim content)

/-- The per-segment loop of `translateSegments` (`translate-segments.mjs`
lines 60-101): one output per input, translation failure falls back to the
untranslated Chinese text.  `oracle i` is the `i`-th GPT call's message
content, or the thrown error. -/
def translateSegmentsGo (oracle : ℕ → Except String String) :
    ℕ → List TranscriptSeg → List TranslatedSegment
  | _, [] => []
  | i, segment :: rest =>
      let duration := segment.stop - segment.start
      let out : TranslatedSegment :=
        match oracle i with
        | .ok content =>
            { chinese := segment.text, english := cleanTranslation content,
              start := segment.start, stop := segment.stop, duration := duration }
        | .error _ =>
            { chinese := segment.text, english := segment.text,
              start := segment.start, stop := segment.stop, duration := duration }
      out :: translateSegmentsGo oracle (i + 1) rest

/-- Embeds `translateSegments(segments)` (`translate-segments.mjs` lines 38-107).
Throws only when the API key is missing; an empty input returns `[]`. -/
def translateSegments (hasApiKey : Bool) (oracle : ℕ → Except String String)
    (segments : List TranscriptSeg) : Except String (List TranslatedSegment) :=
  if ¬hasApiKey then .error "OPENAI_API_KEY not found in .env file"
  else .ok (translateSegmentsGo oracle 0 segments)

/-! ## text-to-speech.mjs : generateAllSegments -/

/-- The per-segment loop of `generateAllSegments` (`text-to-speech.mjs`
lines 77-121): on success the segment is spread with `audioPath` and the
measured `audioDuration`; on any failure in generate/save/probe the segment
is spread with `audioPath: null`, `audioDuration: segment.duration` and the
error message.  `oracle i` is the measured duration of segment `i`'s audio,
or the thrown error. -/
def generateAllSegmentsGo (outputDir : String) (oracle : ℕ → Except String ℚ) :
    ℕ → List TranslatedSegment → List TtsSegment
  | _, [] => []
  | i, segment :: rest =>
      let out : TtsSegment :=
        match oracle i with
        | .ok audioDuration =>
            { toTranslatedSegment := segment,
              audioPath := some (outputDir ++ "/segment_" ++ toString i ++ ".mp3"),
              audioDuration := audioDuration, ttsError := none }
        | .error e =>
            { toTranslatedSegment := segment,
              audioPath := none, audioDuration := segment.duration,
              ttsError := some e }
      out :: generateAllSegmentsGo outputDir oracle (i + 1) rest

/-- Embeds `generateAllSegments(segments, outputDir, voiceId)` (`text-to-speech.mjs`
lines 46-138).  Throws only when the ElevenLabs key is missing; an empty or
missing segment list returns `[]`. -/
def generateAllSegments (hasApiKey : Bool) (outputDir : String)
    (oracle : ℕ → Except String ℚ) (segments : List TranslatedSegment) :
    Except String (List TtsSegment) :=
  if ¬hasApiKey then .error "ELEVENLABS_API_KEY not found in .env file"
  else .ok (generateAllSegmentsGo outputDir oracle 0 segments)

/-! ## simple-text-overlay.mjs : the Text-Overlay Compositor -/

/-- Percent-based overlay position. -/
structure OverlayPosition where
  x_percent : ℚ
  y_percent : ℚ
deriving Repr

/-- Percent-based overlay size. -/
structure OverlaySize where
  width_percent : ℚ
  height_percent : ℚ
deriving Repr

/-- A text overlay as consumed by the Compositor; `position`/`size` may be
absent (`overlay.position || defaultPosition`). -/
structure TextOverlay where
  chinese : String
  english : String
  isAuthorOverlay : Bool
  position : Option OverlayPosition
  size : Option OverlaySize
deriving Repr

/-- Embeds `MIN_FONT` (`simple-text-overlay.mjs` line 72). -/
def MIN_FONT : ℕ := 10

/-- The fixed text padding (`simple-text-overlay.mjs` line 70). -/
def overlayPadding : ℚ := 8

/-- The `forEach` body of the nested `wordWrap` (`simple-text-overlay.mjs`
lines 75-91), fed the split words and the running `cur` line.  `measure`
stands for `ctx.measureText(·).width` at the already-set font. -/
def wordWrapGo (measure : String → ℚ) (maxWidth : ℚ) :
    List String → String → List String
  | [], cur => if cur = "" then [] else [cur]
  | w :: ws, cur =>
      let test := if cur = "" then w else cur ++ " " ++ w
      if measure test > maxWidth ∧ cur ≠ "" then
        cur :: wordWrapGo measure maxWidth ws w
      else
        wordWrapGo measure maxWidth ws test

/-- Embeds `wordWrap(size)` for a fixed font: split the text at single spaces and
wrap greedily against `maxWidth`. -/
def wordWrap (measure : String → ℚ) (maxWidth : ℚ) (text : String) :
    List String :=
  wordWrapGo measure maxWidth (jsSplitSpace text) ""

/-- The font-shrinking `while` loop (`simple-text-overlay.mjs` lines 93-99):
re-wrap at ever smaller sizes while the wrapped block overflows the box
height and the font is still above `MIN_FONT`.  `measure sz s` is the
measured width of `s` at font size `sz`; `lineHeight = fontSize * 1.2`. -/
def autoFitLoop (measure : ℕ → String → ℚ) (text : String)
    (maxWidth boxHeight : ℚ) (fontSize : ℕ) : ℕ × List String :=
  let lines := wordWrap (measure fontSize) maxWidth text
  if h : (lines.length : ℚ) * ((fontSize : ℚ) * 1.2) > boxHeight ∧ MIN_FONT < fontSize then
    autoFitLoop measure text maxWidth boxHeight (fontSize - 1)
  else
    (fontSize, lines)
termination_by fontSize
decreasing_by
  have h10 : MIN_FONT < fontSize := h.2
  simp only [MIN_FONT] at h10
  omega

/-- The per-overlay text layout computed by the Compositor
(`simple-text-overlay.mjs` lines 38-99): resolve the percent box to pixels
(with the stacked defaults when position/size are missing), skip non-positive
boxes, then auto-fit.  Returns the box geometry, the final font size and the
wrapped lines. -/
structure OverlayLayout where
  x : ℤ
  y : ℤ
  boxWidth : ℤ
  boxHeight : ℤ
  maxWidth : ℚ
  fontSize : ℕ
  lines : List String
deriving Repr

/-- Layout for overlay number `index` against an image of the given pixel
dimensions; `none` is the skip branch for a non-positive resolved box. -/
def overlayLayout (measure : ℕ → String → ℚ) (width height : ℚ)
    (index : ℕ) (overlay : TextOverlay) : Option OverlayLayout :=
  let position := overlay.position.getD
    { x_percent := 10, y_percent := 10 + (index : ℚ) * 15 }
  let size := overlay.size.getD { width_percent := 80, height_percent := 10 }
  let x : ℤ := ⌊position.x_percent / 100 * width⌋
  let y : ℤ := ⌊position.y_percent / 100 * height⌋
  let boxWidth : ℤ := ⌊size.width_percent / 100 * width⌋
  let boxHeight : ℤ := ⌊size.height_percent / 100 * height⌋
  if boxWidth ≤ 0 ∨ boxHeight ≤ 0 then none
  else
    let maxWidth : ℚ := (boxWidth : ℚ) - overlayPadding * 2
    let fontSize0 : ℕ := max MIN_FONT (⌊(boxHeight : ℚ) * 0.5⌋.toNat)
    let fit := autoFitLoop measure overlay.english maxWidth (boxHeight : ℚ) fontSize0
    some { x := x, y := y, boxWidth := boxWidth, boxHeight := boxHeight,
           maxWidth := maxWidth, fontSize := fit.1, lines := fit.2 }

/-- The path returned by `overlayTranslatedText(imagePath, overlays,
outputPath)` (`simple-text-overlay.mjs` lines 13-140).  The input-validation
throws and every image-operation failure are caught by the function's own
`catch`, which returns the original `imagePath`; `imageOpsOk` is the oracle
for the sharp/canvas operations succeeding.  JavaScript `!imagePath` is the
empty-string test. -/
def overlayTranslatedText (imageOpsOk : Bool) (imagePath : String)
    (overlays : List TextOverlay) (outputPath : String) : String :=
  if imagePath = "" ∨ outputPath = "" ∨ overlays.isEmpty then imagePath
  else if imageOpsOk then outputPath
  else imagePath

/-! ## edit-with-qwen.mjs and the Qwen branch of process-xhs-posts.mjs -/

/-- The path returned by `editImageWithQwen(imagePath, overlays, outputPath)`
(`edit-with-qwen.mjs`).  Missing key, empty overlays and every service or
download error return the original `imagePath`; `callOk` is the oracle for
the edit round-trip succeeding, in which case the edited file is written at
`outputPath` and that path returned. -/
def editImageWithQwen (hasApiKey callOk : Bool) (imagePath : String)
    (overlays : List TextOverlay) (outputPath : String) : String :=
  if ¬hasApiKey then imagePath
  else if overlays.isEmpty then imagePath
  else if callOk then outputPath
  else imagePath

/-- Oracle outcomes for one image's Qwen edit branch of
`uploadAllImagesToSupabase` (`process-xhs-posts.mjs` lines 287-325):
the two edit attempts, the two validation verdicts
(`validateImageTranslation(...).success`) and the Compositor's internal
image operations. -/
structure QwenBranchEnv where
  hasQwenKey : Bool
  qwenFirstOk : Bool
  qwenRetryOk : Bool
  validationFirst : Bool
  validationRetry : Bool
  compositorOk : Bool
deriving Repr

/-- The `finalImagePath` computed by the Qwen branch
(`process-xhs-posts.mjs` lines 287-325) for an image with `0 < overlays ≤ 5`.
The source's guard `translatedPath !== localImagePath &&
fs.existsSync(translatedPath)` is rendered as the path inequality: a
successful edit writes the file it names, and a failed edit returns
`localImagePath` itself. -/
def qwenEditBranch (env : QwenBranchEnv)
    (localImagePath editedPath retryPath fallbackPath : String)
    (overlays : List TextOverlay) : String :=
  let translatedPath :=
    editImageWithQwen env.hasQwenKey env.qwenFirstOk localImagePath overlays editedPath
  if translatedPath ≠ localImagePath then
    if ¬env.validationFirst then
      let retried :=
        editImageWithQwen env.hasQwenKey env.qwenRetryOk localImagePath overlays retryPath
      if retried ≠ localImagePath then
        if ¬env.validationRetry then
          overlayTranslatedText env.compositorOk localImagePath overlays fallbackPath
        else retried
      else
        overlayTranslatedText env.compositorOk localImagePath overlays fallbackPath
    else translatedPath
  else
    overlayTranslatedText env.compositorOk localImagePath overlays fallbackPath

/-! ## Defensive JSON machinery

`analyze-with-google-vision.mjs`, `analyze-with-claude.mjs` and
`validate-with-claude.mjs` all funnel model output through `JSON.parse`
plus regex-based cleanup/repair.  The embedding implements a JSON value
type, a fuelled JSON parser, and the exact replacement passes of the
sources.  Brace characters are spelled by code point throughout. -/

/-- The `{` character. -/
def lbrace : Char := Char.ofNat 123

/-- The `}` character. -/
def rbrace : Char := Char.ofNat 125

/-- The backtick character (used by markdown code fences). -/
def btick : Char := Char.ofNat 96

/-- The backslash character. -/
def bslash : Char := Char.ofNat 92

/-- A JSON value.  Numbers are exact rationals. -/
inductive Json where
  | null : Json
  | bool (b : Bool) : Json
  | num (q : ℚ) : Json
  | str (s : String) : Json
  | arr (elems : List Json) : Json
  | obj (fields : List (String × Json)) : Json
deriving Repr

/-- Drop leading whitespace. -/
def skipWs (cs : List Char) : List Char :=
  cs.dropWhile isJsonWs

/-- Numeric value of a hex digit. -/
def hexVal (c : Char) : Option ℕ :=
  if '0' ≤ c ∧ c ≤ '9' then some (c.toNat - 48)
  else if 'a' ≤ c ∧ c ≤ 'f' then some (c.toNat - 87)
  else if 'A' ≤ c ∧ c ≤ 'F' then some (c.toNat - 55)
  else none

/-- Parse the body of a JSON string (after the opening quote), handling the
standard escapes; returns the content and the input after the closing
quote. -/
def parseStringBody : ℕ → List Char → Option (List Char × List Char)
  | 0, _ => none
  | _ + 1, [] => none
  | fuel + 1, c :: rest =>
      if c = dquote then some ([], rest)
      else if c = bslash then
        match rest with
        | [] => none
        | e :: rest2 =>
            let plain (d : Char) : Option (List Char × List Char) :=
              (parseStringBody fuel rest2).map (fun p => (d :: p.1, p.2))
            if e = dquote then plain dquote
            else if e = bslash then plain bslash
            else if e = '/' then plain '/'
            else if e = 'b' then plain (Char.ofNat 8)
            else if e = 'f' then plain (Char.ofNat 12)
            else if e = 'n' then plain '\n'
            else if e = 'r' then plain '\r'
            else if e = 't' then plain '\t'
            else if e = 'u' then
              match rest2 with
              | h1 :: h2 :: h3 :: h4 :: rest3 =>
                  match hexVal h1, hexVal h2, hexVal h3, hexVal h4 with
                  | some a, some b, some c3, some d4 =>
                      (parseStringBody fuel rest3).map
                        (fun p => (Char.ofNat (((a * 16 + b) * 16 + c3) * 16 + d4) :: p.1, p.2))
                  | _, _, _, _ => none
              | _ => none
            else none
      else if c.toNat < 32 then none
      else (parseStringBody fuel rest).map (fun p => (c :: p.1, p.2))

/-- Digits to a natural number. -/
def digitsToNat (ds : List Char) : ℕ :=
  ds.foldl (fun acc c => acc * 10 + (c.toNat - 48)) 0

/-- Parse a JSON number (integer part, optional fraction, optional
exponent), returning its exact rational value and the rest of the input.
The value is assembled with integer arithmetic and `mkRat` only. -/
def parseNumberParts (cs : List Char) : Option (ℚ × List Char) :=
  let (neg, cs1) :=
    match cs with
    | '-' :: rest => (true, rest)
    | _ => (false, cs)
  let intDigits := cs1.takeWhile Char.isDigit
  let cs2 := cs1.dropWhile Char.isDigit
  if intDigits.isEmpty then none
  else if intDigits.length > 1 ∧ intDigits.head? = some '0' then none
  else
    let fracStep : Option (List Char × List Char) :=
      match cs2 with
      | '.' :: cs3 =>
          let fracDigits := cs3.takeWhile Char.isDigit
          if fracDigits.isEmpty then none
          else some (fracDigits, cs3.dropWhile Char.isDigit)
      | _ => some ([], cs2)
    match fracStep with
    | none => none
    | some (fracDigits, cs4) =>
        let expStep : Option (ℤ × List Char) :=
          match cs4 with
          | 'e' :: cs5 | 'E' :: cs5 =>
              let (expNeg, cs6) :=
                match cs5 with
                | '+' :: r => (false, r)
                | '-' :: r => (true, r)
                | _ => (false, cs5)
              let expDigits := cs6.takeWhile Char.isDigit
              if expDigits.isEmpty then none
              else
                let e : ℤ := digitsToNat expDigits
                some (if expNeg then -e else e, cs6.dropWhile Char.isDigit)
          | _ => some (0, cs4)
        match expStep with
        | none => none
        | some (exp10, rest) =>
            let mantissa : ℕ := digitsToNat (intDigits ++ fracDigits)
            let base : ℤ := if neg then -(mantissa : ℤ) else (mantissa : ℤ)
            let value : ℚ :=
              if 0 ≤ exp10 then
                mkRat (base * (10 : ℤ) ^ exp10.toNat) ((10 : ℕ) ^ fracDigits.length)
              else
                mkRat base ((10 : ℕ) ^ fracDigits.length * (10 : ℕ) ^ (-exp10).toNat)
            some (value, rest)

mutual

/-- Parse one JSON value after optional whitespace. -/
def parseValue : ℕ → List Char → Option (Json × List Char)
  | 0, _ => none
  | fuel + 1, cs =>
      match skipWs cs with
      | [] => none
      | c :: rest =>
          if c = dquote then
            (parseStringBody (rest.length + 1) rest).map
              (fun p => (Json.str (String.mk p.1), p.2))
          else if c = lbrace then parseMembersStart fuel rest
          else if c = '[' then parseElementsStart fuel rest
          else if c = 't' then
            if rest.take 3 = ['r', 'u', 'e'] then some (Json.bool true, rest.drop 3) else none
          else if c = 'f' then
            if rest.take 4 = ['a', 'l', 's', 'e'] then some (Json.bool false, rest.drop 4) else none
          else if c = 'n' then
            if rest.take 3 = ['u', 'l', 'l'] then some (Json.null, rest.drop 3) else none
          else
            (parseNumberParts (c :: rest)).map (fun p => (Json.num p.1, p.2))

/-- Parse the inside of an array (after `[`). -/
def parseElementsStart : ℕ → List Char → Option (Json × List Char)
  | 0, _ => none
  | fuel + 1, cs =>
      match skipWs cs with
      | ']' :: rest => some (Json.arr [], rest)
      | cs2 =>
          match parseValue fuel cs2 with
          | none => none
          | some (v, rest) => parseElementsRest fuel [v] rest

/-- Parse the remaining elements of an array (accumulator is reversed). -/
def parseElementsRest : ℕ → List Json → List Char → Option (Json × List Char)
  | 0, _, _ => none
  | fuel + 1, acc, cs =>
      match skipWs cs with
      | ']' :: rest => some (Json.arr acc.reverse, rest)
      | ',' :: rest =>
          match parseValue fuel rest with
          | none => none
          | some (v, rest2) => parseElementsRest fuel (v :: acc) rest2
      | _ => none

/-- Parse the inside of an object (after the opening brace). -/
def parseMembersStart : ℕ → List Char → Option (Json × List Char)
  | 0, _ => none
  | fuel + 1, cs =>
      match skipWs cs with
      | c :: rest =>
          if c = rbrace then some (Json.obj [], rest)
          else if c = dquote then
            match parseMemberAfterKey fuel rest with
            | none => none
            | some (kv, rest2) => parseMembersRest fuel [kv] rest2
          else none
      | [] => none

/-- Parse one `key : value` member, the input starting just after the key's
opening quote. -/
def parseMemberAfterKey : ℕ → List Char → Option ((String × Json) × List Char)
  | 0, _ => none
  | fuel + 1, cs =>
      match parseStringBody (cs.length + 1) cs with
      | none => none
      | some (key, rest) =>
          match skipWs rest with
          | ':' :: rest2 =>
              match parseValue fuel rest2 with
              | none => none
              | some (v, rest3) => some ((String.mk key, v), rest3)
          | _ => none

/-- Parse the remaining members of an object (accumulator is reversed). -/
def parseMembersRest : ℕ → List (String × Json) → List Char → Option (Json × List Char)
  | 0, _, _ => none
  | fuel + 1, acc, cs =>
      match skipWs cs with
      | c :: rest =>
          if c = rbrace then some (Json.obj acc.reverse, rest)
          else if c = ',' then
            match skipWs rest with
            | d :: rest2 =>
                if d = dquote then
                  match parseMemberAfterKey fuel rest2 with
                  | none => none
                  | some (kv, rest3) => parseMembersRest fuel (kv :: acc) rest3
                else none
            | [] => none
          else none
      | [] => none

end

/-- Embeds `JSON.parse(s)` as an option: parse one value and require only
whitespace to remain. -/
def JSON_parse (s : String) : Option Json :=
  match parseValue (2 * s.length + 16) s.toList with
  | some (v, rest) => if (skipWs rest).isEmpty then some v else none
  | none => none

/-! ### The cleanup and truncation-repair passes

Direct renderings of the chained `String.replace` calls shared by
`analyze-with-google-vision.mjs` (lines 87-101) and
`analyze-with-claude.mjs` (lines 124-143).  Each global regex is a
left-to-right scan over the characters; `\s*` before a required closing
character matches exactly the maximal whitespace run (a shorter run would
leave a whitespace character where the closer is required). -/

/-- Embeds `.replace(/,(\s*[}\]])/g, '$1')`: drop a comma that is followed, after
whitespace, by a closing brace or bracket. -/
def dropTrailingCommasGo : ℕ → List Char → List Char
  | 0, cs => cs
  | _ + 1, [] => []
  | fuel + 1, c :: cs =>
      if c = ',' then
        let ws := cs.takeWhile isJsonWs
        match cs.dropWhile isJsonWs with
        | b :: rest =>
            if b = rbrace ∨ b = ']' then ws ++ b :: dropTrailingCommasGo fuel rest
            else c :: dropTrailingCommasGo fuel cs
        | [] => c :: dropTrailingCommasGo fuel cs
      else c :: dropTrailingCommasGo fuel cs

/-- Embeds `.replace(/:\s*'/g, ': "')`: a colon followed by whitespace and a single
quote becomes colon, space, double quote. -/
def colonQuoteGo : ℕ → List Char → List Char
  | 0, cs => cs
  | _ + 1, [] => []
  | fuel + 1, c :: cs =>
      if c = ':' then
        match cs.dropWhile isJsonWs with
        | b :: rest =>
            if b = squote then ':' :: ' ' :: dquote :: colonQuoteGo fuel rest
            else c :: colonQuoteGo fuel cs
        | [] => c :: colonQuoteGo fuel cs
      else c :: colonQuoteGo fuel cs

/-- Embeds `.replace(/'\s*,/g, '",')`: a single quote followed by whitespace and a
comma becomes a double quote and the comma. -/
def quoteCommaGo : ℕ → List Char → List Char
  | 0, cs => cs
  | _ + 1, [] => []
  | fuel + 1, c :: cs =>
      if c = squote then
        match cs.dropWhile isJsonWs with
        | b :: rest =>
            if b = ',' then dquote :: ',' :: quoteCommaGo fuel rest
            else c :: quoteCommaGo fuel cs
        | [] => c :: quoteCommaGo fuel cs
      else c :: quoteCommaGo fuel cs

/-- Embeds `.replace(/'\s*}/g, '"}')`: a single quote followed by whitespace and a
closing brace becomes a double quote and the brace. -/
def quoteBraceGo : ℕ → List Char → List Char
  | 0, cs => cs
  | _ + 1, [] => []
  | fuel + 1, c :: cs =>
      if c = squote then
        match cs.dropWhile isJsonWs with
        | b :: rest =>
            if b = rbrace then dquote :: rbrace :: quoteBraceGo fuel rest
            else c :: quoteBraceGo fuel cs
        | [] => c :: quoteBraceGo fuel cs
      else c :: quoteBraceGo fuel cs

/-- The cleanup pass: trailing commas removed, then the three single-quote
normalizations, in the order of the source. -/
def cleanupJson (s : String) : String :=
  let step1 := dropTrailingCommasGo (s.length + 1) s.toList
  let step2 := colonQuoteGo (step1.length + 1) step1
  let step3 := quoteCommaGo (step2.length + 1) step2
  let step4 := quoteBraceGo (step3.length + 1) step3
  String.mk step4

/-- Embeds `.replace(/,\s*\{[^}]*$/, '')` (non-global): delete from the leftmost
comma that is followed, after whitespace, by an open brace with no closing
brace anywhere after it, to the end of the string. -/
def stripDanglingObjectGo : ℕ → List Char → List Char
  | 0, cs => cs
  | _ + 1, [] => []
  | fuel + 1, c :: cs =>
      if c = ',' then
        match cs.dropWhile isJsonWs with
        | b :: rest =>
            if b = lbrace ∧ rest.all (fun x => ¬x = rbrace) then []
            else c :: stripDanglingObjectGo fuel cs
        | [] => c :: stripDanglingObjectGo fuel cs
      else c :: stripDanglingObjectGo fuel cs

/-- The truncation-repair pass (`analyze-with-google-vision.mjs` lines
97-104): strip a dangling partial object, count unbalanced brackets and
braces, and append the missing closers (brackets first, as in the source). -/
def repairTruncatedJson (s : String) : String :=
  let truncated := stripDanglingObjectGo (s.length + 1) s.toList
  let openBrackets : ℤ := (truncated.count '[' : ℤ) - (truncated.count ']' : ℤ)
  let openBraces : ℤ := (truncated.count lbrace : ℤ) - (truncated.count rbrace : ℤ)
  String.mk (truncated ++ List.replicate openBrackets.toNat ']'
    ++ List.replicate openBraces.toNat rbrace)

/-- The strict → cleanup → repair parse chain, each pass attempted only when
the previous one failed (the nested `try/catch` of both analyzer files). -/
def chainedJsonParse (s : String) : Option Json :=
  match JSON_parse s with
  | some parsed => some parsed
  | none =>
      let cleanedJson := cleanupJson s
      match JSON_parse cleanedJson with
      | some parsed => some parsed
      | none =>
          match JSON_parse (repairTruncatedJson cleanedJson) with
          | some recovered => some recovered
          | none => none

/-- The assistant prefill `{"overlays": [` that `callHaikuForOverlays`
prepends to the model's continuation
(`analyze-with-google-vision.mjs` lines 70-81). -/
def haikuPrefill : String := "\x7b\"overlays\": ["

/-- The JSON-recovery part of `callHaikuForOverlays`
(`analyze-with-google-vision.mjs` lines 80-111): prepend the prefill to the
response text and run the parse chain; `none` is the source's `return null`. -/
def callHaikuForOverlays (responseText : String) : Option Json :=
  chainedJsonParse (haikuPrefill ++ responseText)

/-! ### Brace-span extraction

`responseText.match(/\{[\s\S]*NEEDLE[\s\S]*\}/)` as used with needle
`"overlays"` (`analyze-with-claude.mjs` line 111) and `"all_translated"`
(`validate-with-claude.mjs` line 92).  The greedy match, when it exists,
spans from the first open brace that still has a needle occurrence after it
to the last closing brace of the string. -/

/-- Is `needle` a prefix of `hay`? -/
def startsWithList : List Char → List Char → Bool
  | [], _ => true
  | _ :: _, [] => false
  | a :: as, b :: bs => a == b && startsWithList as bs

/-- Start index of the last occurrence of `needle` inside `hay`. -/
def lastOccurrence (needle hay : List Char) : Option ℕ :=
  ((List.range (hay.length + 1)).filter
    (fun i => startsWithList needle (hay.drop i))).getLast?

/-- Index of the last occurrence of a character. -/
def lastIndexOfChar (cs : List Char) (c : Char) : Option ℕ :=
  ((List.range cs.length).filter (fun i => cs.getD i ' ' == c ∧ i < cs.length)).getLast?

/-- The matched text of `s.match(/\{[\s\S]*needle[\s\S]*\}/)`, or `none`. -/
def jsMatchBraces (needle s : String) : Option String :=
  let cs := s.toList
  match lastIndexOfChar cs rbrace with
  | none => none
  | some kStar =>
      match lastOccurrence needle.toList (cs.take kStar) with
      | none => none
      | some pLast =>
          match (cs.take pLast).findIdx? (fun c => c == lbrace) with
          | none => none
          | some i => some (String.mk ((cs.drop i).take (kStar + 1 - i)))

/-! ### JavaScript value helpers -/

/-- Last-wins field lookup on a JSON object (`JSON.parse` keeps the final
duplicate); `none` stands for `undefined`. -/
def getField (j : Json) (key : String) : Option Json :=
  match j with
  | .obj fields => ((fields.filter (fun kv => kv.1 == key)).getLast?).map (fun kv => kv.2)
  | _ => none

/-- JavaScript truthiness of a possibly-absent JSON value. -/
def jsTruthy (v : Option Json) : Bool :=
  match v with
  | none => false
  | some .null => false
  | some (.bool b) => b
  | some (.num q) => ¬q = 0
  | some (.str s) => ¬s = ""
  | some (.arr _) => true
  | some (.obj _) => true

/-- Embeds `Number(s)` for the strings that matter here: empty/whitespace is `0`,
otherwise a JSON-style numeral; anything else is NaN (`none`). -/
def jsStringToNum (s : String) : Option ℚ :=
  let cs := (jsTrim s).toList
  if cs.isEmpty then some 0
  else
    match parseNumberParts cs with
    | some (q, rest) => if rest.isEmpty then some q else none
    | none => none

/-- JavaScript `v >= bound` for a possibly-absent JSON value: `undefined`
and non-numeric strings compare as NaN (false); booleans and `null` coerce
to numbers; object/array coercion is not modelled and yields false. -/
def jsGE (v : Option Json) (bound : ℚ) : Bool :=
  match v with
  | some (.num q) => bound ≤ q
  | some (.str s) =>
      match jsStringToNum s with
      | some q => bound ≤ q
      | none => false
  | some (.bool b) => bound ≤ (if b then (1 : ℚ) else 0)
  | some .null => bound ≤ (0 : ℚ)
  | _ => false

/-! ## analyze-with-google-vision.mjs -/

/-- Embeds `MIN_WIDTH_PERCENT` (`analyze-with-google-vision.mjs` line 18). -/
def MIN_WIDTH_PERCENT : ℚ := 2

/-- Embeds `MIN_HEIGHT_PERCENT` (`analyze-with-google-vision.mjs` line 19). -/
def MIN_HEIGHT_PERCENT : ℚ := 1.5

/-- A paragraph of the Vision `fullTextAnnotation`: the symbol texts of its
words, and the `x`/`y` fields of bounding-box vertices 0 and 2, each possibly
absent (the source reads them as `vertices[0].x || 0` and so on). -/
structure VisionParagraph where
  words : List (List String)
  v0x : Option ℚ
  v0y : Option ℚ
  v2x : Option ℚ
  v2y : Option ℚ
deriving Repr

/-- A page: its blocks, each a list of paragraphs. -/
structure VisionPage where
  blocks : List (List VisionParagraph)
deriving Repr

/-- A candidate text block (`analyze-with-google-vision.mjs` lines
164-172). -/
structure TextBlock where
  index : ℕ
  text : String
  x : ℚ
  y : ℚ
  width : ℚ
  height : ℚ
  x_percent : ℚ
  y_percent : ℚ
  width_percent : ℚ
  height_percent : ℚ
deriving Repr

/-- Paragraph text: symbols joined into words, words joined
(`analyze-with-google-vision.mjs` lines 142-144). -/
def paragraphText (p : VisionParagraph) : String :=
  String.join (p.words.map String.join)

/-- Build the text block of a paragraph at position `idx` in the candidate
list (`analyze-with-google-vision.mjs` lines 146-172). -/
def mkTextBlock (imgWidth imgHeight : ℚ) (idx : ℕ) (p : VisionParagraph) :
    TextBlock :=
  let x := p.v0x.getD 0
  let y := p.v0y.getD 0
  let x2 := p.v2x.getD 0
  let y2 := p.v2y.getD 0
  let width := x2 - x
  let height := y2 - y
  { index := idx, text := paragraphText p, x := x, y := y,
    width := width, height := height,
    x_percent := x / imgWidth * 100, y_percent := y / imgHeight * 100,
    width_percent := width / imgWidth * 100,
    height_percent := height / imgHeight * 100 }

/-- The size filter (`analyze-with-google-vision.mjs` lines 159-161): a
paragraph is kept unless its width and height percentages are both below
the minima. -/
def keepBlock (imgWidth imgHeight : ℚ) (p : VisionParagraph) : Bool :=
  let width_percent := (p.v2x.getD 0 - p.v0x.getD 0) / imgWidth * 100
  let height_percent := (p.v2y.getD 0 - p.v0y.getD 0) / imgHeight * 100
  ¬(width_percent < MIN_WIDTH_PERCENT ∧ height_percent < MIN_HEIGHT_PERCENT)

/-- The paragraph loop building `textBlocks`
(`analyze-with-google-vision.mjs` lines 137-175): a filtered paragraph is
skipped (`continue`), a kept one is appended with `index =
textBlocks.length`. -/
def extractTextBlocksGo (imgWidth imgHeight : ℚ) :
    List VisionParagraph → ℕ → List TextBlock
  | [], _ => []
  | p :: rest, idx =>
      let b := mkTextBlock imgWidth imgHeight idx p
      if b.width_percent < MIN_WIDTH_PERCENT ∧ b.height_percent < MIN_HEIGHT_PERCENT then
        extractTextBlocksGo imgWidth imgHeight rest idx
      else
        b :: extractTextBlocksGo imgWidth imgHeight rest (idx + 1)

/-- The paragraphs of all pages in visit order (pages, then blocks, then
paragraphs). -/
def flattenParagraphs (pages : List VisionPage) : List VisionParagraph :=
  pages.flatMap (fun page => page.blocks.flatMap id)

/-- The `textBlocks` list of `analyzeImageWithGoogle`. -/
def extractTextBlocks (pages : List VisionPage) (imgWidth imgHeight : ℚ) :
    List TextBlock :=
  extractTextBlocksGo imgWidth imgHeight (flattenParagraphs pages) 0

/-- Stamp a paragraph list with consecutive indices starting at `idx`
(specification-side companion of `extractTextBlocksGo`). -/
def stampBlocks (imgWidth imgHeight : ℚ) : ℕ → List VisionParagraph → List TextBlock
  | _, [] => []
  | idx, p :: rest =>
      mkTextBlock imgWidth imgHeight idx p :: stampBlocks imgWidth imgHeight (idx + 1) rest

/-- An overlay as produced by `analyzeImageWithGoogle` STEP 3
(`analyze-with-google-vision.mjs` lines 219-234); the text fields hold
whatever JSON values the model supplied. -/
structure AnalyzedOverlay where
  chinese : Json
  english : Json
  isAuthorOverlay : Bool
  position : OverlayPosition
  size : OverlaySize
deriving Repr

/-- JavaScript `a || b` on possibly-absent JSON values. -/
def jsOr (a b : Option Json) : Option Json :=
  if jsTruthy a then a else b

/-- Embeds `textBlocks[overlay.index]`: array indexing by an arbitrary JSON value;
an integral number or a canonical numeral string selects an element,
anything else is `undefined`. -/
def jsArrayGet (xs : List TextBlock) (idx : Option Json) : Option TextBlock :=
  match idx with
  | some (.num q) => if q.den = 1 ∧ 0 ≤ q.num then xs[q.num.toNat]? else none
  | some (.str s) =>
      if s.toList.all Char.isDigit ∧ ¬s.isEmpty ∧
          (s.toList.head? = some '0' → s.length = 1) then
        xs[digitsToNat s.toList]?
      else none
  | _ => none

/-- Map one returned overlay entry back to its text block
(`analyze-with-google-vision.mjs` lines 219-234); a missing or invalid
index drops the entry (`filter(Boolean)`). -/
def mapOverlayEntry (textBlocks : List TextBlock) (o : Json) :
    Option AnalyzedOverlay :=
  match jsArrayGet textBlocks (getField o "index") with
  | none => none
  | some textBlock =>
      let chinese := (jsOr (getField o "chinese") (jsOr (getField o "text")
        (jsOr (getField o "original") (some (Json.str textBlock.text))))).getD Json.null
      let english := (jsOr (getField o "english") (jsOr (getField o "translation")
        (jsOr (getField o "translated") (some chinese)))).getD Json.null
      some { chinese := chinese, english := english, isAuthorOverlay := true,
             position := { x_percent := textBlock.x_percent, y_percent := textBlock.y_percent },
             size := { width_percent := textBlock.width_percent,
                       height_percent := textBlock.height_percent } }

/-- STEP 3 of `analyzeImageWithGoogle`: `filteredOverlays.overlays.map(...)
.filter(Boolean)`.  Reading `.map` off a missing or non-array `overlays`
field throws (caught by the outer handler). -/
def mapOverlaysStep (textBlocks : List TextBlock) (filtered : Json) :
    Except String (List AnalyzedOverlay) :=
  match getField filtered "overlays" with
  | some (.arr entries) => .ok ((entries.map (mapOverlayEntry textBlocks)).reduceOption)
  | _ => .error "TypeError: overlays is not an array"

/-- Embeds `BATCH_SIZE` of the batched fallback
(`analyze-with-google-vision.mjs` line 203). -/
def BATCH_SIZE : ℕ := 15

/-- The batched-fallback loop (`analyze-with-google-vision.mjs` lines
207-213): one Haiku call per 15-block slice; a thrown call propagates, a
batch that fails to parse contributes no overlays, and spreading
`batchResult.overlays` throws when the field is not an array. -/
def batchLoop (haiku : ℕ → Except String String) :
    ℕ → ℕ → List TextBlock → Except String (List Json)
  | 0, _, _ => .ok []
  | _ + 1, _, [] => .ok []
  | fuel + 1, callIdx, blocks =>
      match haiku callIdx with
      | .error e => .error e
      | .ok responseText =>
          let contrib : Except String (List Json) :=
            match callHaikuForOverlays responseText with
            | none => .ok []
            | some batchResult =>
                match getField batchResult "overlays" with
                | some (.arr xs) => .ok xs
                | _ => .error "TypeError: spread of non-iterable overlays"
          match contrib with
          | .error e => .error e
          | .ok xs =>
              match batchLoop haiku fuel (callIdx + 1) (blocks.drop BATCH_SIZE) with
              | .error e => .error e
              | .ok rest => .ok (xs ++ rest)

/-- Oracle inputs of one `analyzeImageWithGoogle` run: the Vision call
(`.ok none` is a null/absent `fullTextAnnotation`), the sharp metadata read,
the image dimensions, the image file read, and the text of the `k`-th Haiku
call (`0` the single shot, `1, 2, …` the batched retries). -/
structure GoogleAnalyzeEnv where
  vision : Except String (Option (List VisionPage))
  metadataOk : Bool
  imgWidth : ℚ
  imgHeight : ℚ
  readImageOk : Bool
  haiku : ℕ → Except String String

/-- The `try` body of `analyzeImageWithGoogle`
(`analyze-with-google-vision.mjs` lines 120-241). -/
def analyzeImageWithGoogleBody (env : GoogleAnalyzeEnv) :
    Except String (List AnalyzedOverlay) :=
  match env.vision with
  | .error e => .error e
  | .ok none => .ok []
  | .ok (some pages) =>
      if pages.isEmpty then .ok []
      else if ¬env.metadataOk then .error "sharp metadata failed"
      else
        let textBlocks := extractTextBlocks pages env.imgWidth env.imgHeight
        if textBlocks.isEmpty then .ok []
        else if ¬env.readImageOk then .error "readFileSync failed"
        else
          match env.haiku 0 with
          | .error e => .error e
          | .ok responseText =>
              match callHaikuForOverlays responseText with
              | some filteredOverlays => mapOverlaysStep textBlocks filteredOverlays
              | none =>
                  match batchLoop env.haiku (textBlocks.length + 1) 1 textBlocks with
                  | .error e => .error e
                  | .ok allOverlays =>
                      mapOverlaysStep textBlocks
                        (Json.obj [("overlays", Json.arr allOverlays)])

/-- Embeds `analyzeImageWithGoogle(imagePath)`: the body with its outer `catch`
returning `{ overlays: [] }` (`analyze-with-google-vision.mjs` lines
243-246). -/
def analyzeImageWithGoogle (env : GoogleAnalyzeEnv) : List AnalyzedOverlay :=
  match analyzeImageWithGoogleBody env with
  | .ok overlays => overlays
  | .error _ => []

/-! ## analyze-with-claude.mjs -/

/-- The two markdown-fence replaces of `analyzeImageText`
(`analyze-with-claude.mjs` lines 106-108), applied only when the text
starts with a fence: the leading fence regex (three backticks, an optional
json tag, whitespace, an optional newline) is dropped in front, and the
trailing fence regex (an optional newline, three backticks, trailing
whitespace) at the end when present. -/
def stripCodeFences (s : String) : String :=
  let cs := s.toList
  if startsWithList [btick, btick, btick] cs then
    let afterTicks := cs.drop 3
    let afterJson :=
      if startsWithList ['j', 's', 'o', 'n'] afterTicks then afterTicks.drop 4
      else afterTicks
    let lead := afterJson.dropWhile isJsonWs
    let revd := lead.reverse
    let revNoWs := revd.dropWhile isJsonWs
    let stripped :=
      if startsWithList [btick, btick, btick] revNoWs then
        match revNoWs.drop 3 with
        | c :: rest => if c = '\n' then rest else c :: rest
        | [] => []
      else revd
    String.mk stripped.reverse
  else s

/-- Oracle inputs of one `analyzeImageText` run. -/
structure ClaudeAnalyzeEnv where
  readImageOk : Bool
  api : Except String String

/-- The `try` body of `analyzeImageText` (`analyze-with-claude.mjs` lines
16-161): fence stripping, brace-span extraction (no span means no
overlays), the chained parse (failure means no overlays), then
`analysis.overlays.filter(o => o.isAuthorOverlay)`, which throws when
`overlays` is missing or not an array. -/
def analyzeImageTextBody (env : ClaudeAnalyzeEnv) : Except String (List Json) :=
  if ¬env.readImageOk then .error "readFileSync failed"
  else
    match env.api with
    | .error e => .error e
    | .ok raw =>
        let responseText := stripCodeFences (jsTrim raw)
        match jsMatchBraces "overlays" responseText with
        | none => .ok []
        | some matched =>
            match chainedJsonParse matched with
            | none => .ok []
            | some analysis =>
                match getField analysis "overlays" with
                | some (.arr xs) =>
                    .ok (xs.filter (fun o => jsTruthy (getField o "isAuthorOverlay")))
                | _ => .error "TypeError: overlays is not an array"

/-- Embeds `analyzeImageText(imagePath)`: the body with its outer `catch`
returning `{ overlays: [] }` (`analyze-with-claude.mjs` lines 163-167). -/
def analyzeImageText (env : ClaudeAnalyzeEnv) : List Json :=
  match analyzeImageTextBody env with
  | .ok overlays => overlays
  | .error _ => []

/-! ## validate-with-claude.mjs -/

/-- The observable part of `validateImageTranslation`'s return value. -/
structure ValidationResult where
  success : Bool
  reason : String
deriving Repr

/-- Embeds `validateImageTranslation(editedImagePath, expectedOverlays)`
(`validate-with-claude.mjs` lines 17-131).  `apiOutcome` covers the image
read and the Claude call (both inside the `try`); every failure path,
including an unparseable match, lands in a `success: true` branch.  On a
parsed response, `success = validation.all_translated &&
validation.quality_score >= 80 && !validation.gibberish_detected` with
JavaScript truthiness and comparison semantics. -/
def validateImageTranslation (expectedOverlays : List TextOverlay)
    (apiOutcome : Except String String) : ValidationResult :=
  if expectedOverlays.isEmpty then
    { success := true, reason := "No overlays to validate" }
  else
    match apiOutcome with
    | .error _ =>
        { success := true, reason := "Validation error - assuming success" }
    | .ok responseText =>
        match jsMatchBraces "all_translated" responseText with
        | none => { success := true, reason := "Validation inconclusive" }
        | some matched =>
            match JSON_parse matched with
            | none =>
                { success := true, reason := "Validation error - assuming success" }
            | some validation =>
                let success := jsTruthy (getField validation "all_translated")
                  && jsGE (getField validation "quality_score") 80
                  && !jsTruthy (getField validation "gibberish_detected")
                { success := success, reason := "validated" }

/-! ## Concrete sample inputs used by witnesses and counterexamples -/

/-- A segment at the spec's boundary scenario: a 3.0 s slot whose
synthesized audio measures 4.5 s (ratio exactly 1.5). -/
def boundarySegment : TtsSegment :=
  { chinese := "这里超好吃", english := "This place is amazing",
    start := 0, stop := 3, duration := 3,
    audioPath := some "seg0.mp3", audioDuration := 4.5, ttsError := none }

/-- A Whisper oracle that 400-rejects the first attempt. -/
def rejectingOracle : ℕ → WhisperOutcome := fun _ => .err (some 400) "bad format"

/-- A one-segment transcript for exercising the stage invariants. -/
def anchorSeg : TranscriptSeg := { text := "外滩好美", start := 2, stop := 5 }

/-- A sample author overlay. -/
def sampleOverlay : TextOverlay :=
  { chinese := "你好", english := "Hello", isAuthorOverlay := true,
    position := none, size := none }

/-- A font metric where width scales with font size and character count. -/
def wideMeasure : ℕ → String → ℚ := fun size s => (size : ℚ) * s.toList.length

/-- A single unbreakable ten-character word in a 50×40 pixel box (5% × 4%
of a 1000×1000 image). -/
def longWordOverlay : TextOverlay :=
  { chinese := "超长词", english := "abcdefghij", isAuthorOverlay := true,
    position := some { x_percent := 0, y_percent := 0 },
    size := some { width_percent := 5, height_percent := 4 } }

/-- A font metric independent of the font size. -/
def flatMeasure : ℕ → String → ℚ := fun _ s => (s.toList.length : ℚ)

/-- A two-word overlay in the same 50×40 box. -/
def twoWordOverlay : TextOverlay :=
  { chinese := "两词", english := "a b", isAuthorOverlay := true,
    position := some { x_percent := 0, y_percent := 0 },
    size := some { width_percent := 5, height_percent := 4 } }

/-- A clean continuation: together with the prefill, `{"overlays": []}`. -/
def cleanResp : String := "]\x7d"

/-- A continuation with a single-quoted value and a trailing comma. -/
def dirtyResp : String :=
  "\x7b\"index\": 0, \"english\": " ++ String.mk [squote] ++ "hi"
    ++ String.mk [squote] ++ "\x7d,]\x7d"

/-- A continuation truncated in the middle of its second object. -/
def truncResp : String := "\x7b\"index\": 0, \"english\": \"hi\"\x7d, \x7b\"index\": 1, \"chin"

/-- The overlay list recovered from both the dirty and the truncated
continuations. -/
def oneOverlayJson : Json :=
  Json.obj [("overlays", Json.arr
    [Json.obj [("index", Json.num 0), ("english", Json.str "hi")]])]

/-- A run where the Vision service itself throws. -/
def downGoogleEnv : GoogleAnalyzeEnv :=
  { vision := .error "UNAVAILABLE", metadataOk := true, imgWidth := 100,
    imgHeight := 100, readImageOk := true, haiku := fun _ => .error "not reached" }

/-- A run where the Claude call throws. -/
def downClaudeEnv : ClaudeAnalyzeEnv :=
  { readImageOk := true, api := .error "overloaded" }

/-- A tall, thin block: 1% wide (below the 2% minimum) but 50% tall. -/
def tallThinParagraph : VisionParagraph :=
  { words := [["高"]], v0x := some 0, v0y := some 0, v2x := some 1, v2y := some 50 }

/-- A parsed validation response that affirms `all_translated` but carries
no `quality_score` field at all. -/
def validationNoScoreResp : String := "\x7b\"all_translated\": true\x7d"

/-- A fully-populated passing validation response. -/
def validationGoodResp : String :=
  "\x7b\"all_translated\": true, \"quality_score\": 90, \"gibberish_detected\": false\x7d"

/-- The JSON value of `validationGoodResp`. -/
def validationGoodJson : Json :=
  Json.obj [("all_translated", Json.bool true), ("quality_score", Json.num 90),
    ("gibberish_detected", Json.bool false)]

/-! # Theorems -/

/-! ## Shared helper lemmas -/

/-- Indexing the `syncAudioTiming` loop: element `i` of the output is the
synced image of element `i` of the input, at loop counter `k + i`. -/
theorem syncAudioTimingGo_getElem? (outputDir : String) :
    ∀ (segs : List TtsSegment) (k i : ℕ),
      (syncAudioTimingGo outputDir k segs)[i]? =
        (segs[i]?).map (syncSegment outputDir (k + i)) := by
  intro segs
  induction segs with
  | nil => intro k i; simp [syncAudioTimingGo]
  | cons s rest ih =>
      intro k i
      cases i with
      | zero => simp [syncAudioTimingGo]
      | succ j =>
          simp only [syncAudioTimingGo, List.getElem?_cons_succ]
          rw [ih (k + 1) j]
          have harith : k + 1 + j = k + (j + 1) := by omega
          rw [harith]

/-- Helper: `syncSegment` copies the timeline anchors unchanged. -/
theorem syncSegment_start_stop (outputDir : String) (i : ℕ) (segment : TtsSegment) :
    (syncSegment outputDir i segment).start = segment.start ∧
      (syncSegment outputDir i segment).stop = segment.stop := by
  cases hp : segment.audioPath with
  | none => simp [syncSegment, hp]
  | some p =>
      simp only [syncSegment, hp]
      split_ifs <;> exact ⟨rfl, rfl⟩

/-- The segment loop of `assembleAudioTrack` advances exactly from `t` to
its final clock when every present segment's audio matches its slot and the
gaps respect the 10 ms tolerance. -/
theorem assembleDurs_sum (fileDuration : String → ℚ) :
    ∀ (segs : List AssembledSegment) (t : ℚ),
      (∀ seg ∈ segs, ∃ p, seg.adjustedAudioPath = some p ∧
          fileDuration p = seg.stop - seg.start) →
      gapsAligned t segs →
      (assembleDurs fileDuration segs t).1.sum =
        (assembleDurs fileDuration segs t).2 - t := by
  intro segs
  induction segs with
  | nil => intro t _ _; simp [assembleDurs]
  | cons seg rest ih =>
      intro t haudio hgaps
      obtain ⟨p, hp, hdur⟩ := haudio seg (List.mem_cons_self seg rest)
      have hrest : ∀ s ∈ rest, ∃ q, s.adjustedAudioPath = some q ∧
          fileDuration q = s.stop - s.start :=
        fun s hs => haudio s (List.mem_cons_of_mem seg hs)
      obtain ⟨hgap, hgaps'⟩ := hgaps
      have ihr := ih seg.stop hrest hgaps'
      simp only [assembleDurs, hp]
      rcases hgap with h0 | hbig
      · have : ¬(seg.start - t > 0.01) := by rw [h0]; norm_num
        simp only [this, if_false, List.nil_append, List.sum_cons, ihr, hdur]
        rw [h0]
        ring
      · simp only [hbig, if_true, List.cons_append, List.nil_append,
          List.sum_cons, ihr, hdur]
        ring

/-! ## C1 : the timing reconciler's ratio cases -/

/-- C1: for every segment that has an audio file, `syncAudioTiming`'s
decision is determined solely by the ratio `audioDuration / duration`:
ratio in `[0.95, 1.05]` leaves the audio unchanged at speed factor 1;
ratio in `(1.05, 1.5]` speeds up by exactly the ratio with no warning
(the boundary 1.5 included); ratio above 1.5 caps the speed at 1.5 and
attaches a warning recording the computed ratio; ratio below 0.95 pads the
clip's end with silence equal to `duration - audioDuration`.
(`0 < duration` keeps the rational ratio faithful to the JavaScript float
division.) -/
theorem syncAudioTiming_ratio_decision
    (segments : List TtsSegment) (outputDir : String) (i : ℕ)
    (segment : TtsSegment) (hseg : segments[i]? = some segment)
    (p : String) (hp : segment.audioPath = some p)
    (_hd : 0 < segment.duration) :
    ∃ result, (syncAudioTiming segments outputDir)[i]? = some result ∧
      ((0.95 ≤ segment.audioDuration / segment.duration ∧
          segment.audioDuration / segment.duration ≤ 1.05 →
        result.speedAdjustment = some 1 ∧ result.adjustedAudioPath = some p ∧
          result.warning = none ∧ result.silencePadding = none) ∧
       (1.05 < segment.audioDuration / segment.duration ∧
          segment.audioDuration / segment.duration ≤ 1.5 →
        result.speedAdjustment = some (segment.audioDuration / segment.duration) ∧
          result.warning = none ∧ result.silencePadding = none) ∧
       (1.5 < segment.audioDuration / segment.duration →
        result.speedAdjustment = some 1.5 ∧
          result.warning = some (segment.audioDuration / segment.duration) ∧
          result.silencePadding = none) ∧
       (segment.audioDuration / segment.duration < 0.95 →
        result.speedAdjustment = some 1 ∧ result.warning = none ∧
          result.silencePadding =
            some (segment.duration - segment.audioDuration))) := by
  refine ⟨syncSegment outputDir i segment, ?_, ?_⟩
  · rw [syncAudioTiming, syncAudioTimingGo_getElem? outputDir segments 0 i, hseg]
    simp
  · simp only [syncSegment, hp]
    split_ifs with h1 h2 h3
    · refine ⟨fun _ => ⟨rfl, rfl, rfl, rfl⟩, fun h => ?_, fun h => ?_, fun h => ?_⟩
      · exact absurd h1.2 (by linarith [h.1])
      · exact absurd h1.2 (by linarith)
      · exact absurd h1.1 (by linarith)
    · refine ⟨fun h => ?_, fun _ => ⟨rfl, rfl, rfl⟩, fun h => ?_, fun h => ?_⟩
      · exact absurd h2.1 (by linarith [h.2])
      · exact absurd h2.2 (by linarith)
      · exact absurd h2.1 (by linarith)
    · refine ⟨fun h => ?_, fun h => ?_, fun _ => ⟨rfl, rfl, rfl⟩, fun h => ?_⟩
      · exact absurd h3 (by linarith [h.2])
      · exact absurd h3 (by linarith [h.2])
      · exact absurd h3 (by linarith)
    · refine ⟨fun h => ?_, fun h => ?_, fun h => ?_, fun _ => ⟨rfl, rfl, rfl⟩⟩
      · exact absurd h1 (by exact fun hc => hc ⟨h.1, h.2⟩)
      · exact absurd h2 (by exact fun hc => hc ⟨h.1, h.2⟩)
      · exact absurd h3 (by linarith)

/-- C1 witness: at ratio exactly 1.5 the decision is the speed-up branch
with factor 1.5 and no warning (boundary inclusive). -/
theorem syncAudioTiming_ratio_decision_witness :
    ∃ result, (syncAudioTiming [boundarySegment] "work")[0]? = some result ∧
      result.speedAdjustment = some (boundarySegment.audioDuration / boundarySegment.duration) ∧
      result.warning = none ∧ result.silencePadding = none := by
  obtain ⟨result, hres, hcases⟩ :=
    syncAudioTiming_ratio_decision [boundarySegment] "work" 0 boundarySegment
      (by rfl) "seg0.mp3" (by rfl) (by norm_num [boundarySegment])
  obtain ⟨hspeed, hwarn, hpad⟩ := hcases.2.1 (by norm_num [boundarySegment])
  exact ⟨result, hres, hspeed, hwarn, hpad⟩

/-! ## C2 : assembled track duration -/

/-- C2 counterexample: with no segments and a video lasting 5 ms, the final
silence falls inside the 10 ms tolerance, nothing is emitted, and the
assembled track lasts 0 — not the video duration. -/
theorem assembleAudioTrack_duration_counterexample :
    assembleAudioTrackDuration (fun _ => 0) [] (1 / 200) ≠ 1 / 200 := by
  norm_num [assembleAudioTrackDuration, assembleDurs]

/-- C2 (amended): the assembled track's duration equals the video duration
provided every segment carries adjusted audio whose file duration is exactly
its slot `stop - start`, each segment starts exactly at the running clock or
more than 10 ms after it, and the video ends exactly at the last segment's
end or more than 10 ms after it.  (The unamended claim fails on sub-10 ms
final gaps, on segments whose audio does not exactly fill the slot, and on
missing audio, because silences inside the tolerance are skipped and the
clip durations themselves make up the track.) -/
theorem assembleAudioTrack_duration_amended (fileDuration : String → ℚ)
    (segments : List AssembledSegment) (videoDuration : ℚ)
    (haudio : ∀ seg ∈ segments, ∃ p, seg.adjustedAudioPath = some p ∧
        fileDuration p = seg.stop - seg.start)
    (hgaps : gapsAligned 0 segments)
    (hfinal : videoDuration = (assembleDurs fileDuration segments 0).2 ∨
        videoDuration - (assembleDurs fileDuration segments 0).2 > 0.01) :
    assembleAudioTrackDuration fileDuration segments videoDuration =
      videoDuration := by
  have hsum := assembleDurs_sum fileDuration segments 0 haudio hgaps
  rw [assembleAudioTrackDuration]
  rcases hfinal with h0 | hbig
  · have : ¬(videoDuration - (assembleDurs fileDuration segments 0).2 > 0.01) := by
      rw [h0]; norm_num
    simp only [this, if_false]
    rw [hsum, h0]
    ring
  · simp only [hbig, if_true]
    rw [hsum]
    ring

/-- C2 witness: one 2 s segment from 1 s to 3 s whose adjusted audio lasts
exactly 2 s, inside a 5 s video: the track lasts exactly 5 s. -/
theorem assembleAudioTrack_duration_amended_witness :
    assembleAudioTrackDuration (fun _ => 2)
      [{ adjustedAudioPath := some "adjusted_0.mp3", start := 1, stop := 3 }] 5 = 5 := by
  refine assembleAudioTrack_duration_amended (fun _ => 2) _ 5 ?_ ?_ ?_
  · intro seg hseg
    simp only [List.mem_singleton] at hseg
    exact ⟨"adjusted_0.mp3", by rw [hseg], by rw [hseg]; norm_num⟩
  · refine ⟨Or.inr ?_, trivial⟩
    norm_num
  · right
    norm_num [assembleDurs]

/-! ## C7 : transcription retry policy -/

/-- C7: `transcribeAudio` never retries a status-400 error — it raises at
once, after exactly the one call that produced it; any other error is
retried with exponential backoff (the delay before each retry doubles), up
to `MAX_RETRIES = 3` total attempts; a success on any attempt within the
cap returns, and it raises the aggregate failure only after all three
attempts erred. -/
theorem transcribeAudio_retry_policy :
    (∀ (sizeMB : ℚ) (oracle : ℕ → WhisperOutcome) (msg : String),
      sizeMB ≤ 25 → oracle 1 = .err (some 400) msg →
      transcribeAudio true true sizeMB oracle = .badRequest msg 1) ∧
    (∀ (sizeMB : ℚ) (oracle : ℕ → WhisperOutcome) (resp : WhisperResp),
      sizeMB ≤ 25 → oracle 1 = .ok resp →
      transcribeAudio true true sizeMB oracle = .success (parseWhisperResp resp) 1) ∧
    (∀ (sizeMB : ℚ) (oracle : ℕ → WhisperOutcome) (st₁ : Option ℕ)
        (m₁ : String) (resp : WhisperResp),
      sizeMB ≤ 25 → oracle 1 = .err st₁ m₁ → st₁ ≠ some 400 → oracle 2 = .ok resp →
      transcribeAudio true true sizeMB oracle = .success (parseWhisperResp resp) 2) ∧
    (∀ (sizeMB : ℚ) (oracle : ℕ → WhisperOutcome) (st₁ st₂ : Option ℕ)
        (m₁ m₂ : String) (resp : WhisperResp),
      sizeMB ≤ 25 → oracle 1 = .err st₁ m₁ → st₁ ≠ some 400 →
      oracle 2 = .err st₂ m₂ → st₂ ≠ some 400 → oracle 3 = .ok resp →
      transcribeAudio true true sizeMB oracle = .success (parseWhisperResp resp) 3) ∧
    (∀ (sizeMB : ℚ) (oracle : ℕ → WhisperOutcome) (st₁ : Option ℕ)
        (m₁ m₂ : String),
      sizeMB ≤ 25 → oracle 1 = .err st₁ m₁ → st₁ ≠ some 400 →
      oracle 2 = .err (some 400) m₂ →
      transcribeAudio true true sizeMB oracle = .badRequest m₂ 2) ∧
    (∀ (sizeMB : ℚ) (oracle : ℕ → WhisperOutcome) (st₁ st₂ st₃ : Option ℕ)
        (m₁ m₂ m₃ : String),
      sizeMB ≤ 25 → oracle 1 = .err st₁ m₁ → st₁ ≠ some 400 →
      oracle 2 = .err st₂ m₂ → st₂ ≠ some 400 →
      oracle 3 = .err st₃ m₃ → st₃ ≠ some 400 →
      transcribeAudio true true sizeMB oracle = .failed m₃ MAX_RETRIES) ∧
    (∀ attempt : ℕ, 1 ≤ attempt →
      retryDelayMs (attempt + 1) = 2 * retryDelayMs attempt) := by
  have hsize : ∀ sizeMB : ℚ, sizeMB ≤ 25 → ¬sizeMB > 25 := fun _ h => by linarith
  refine ⟨?_, ?_, ?_, ?_, ?_, ?_, ?_⟩
  · intro sizeMB oracle msg hs h1
    simp [transcribeAudio, hsize sizeMB hs, MAX_RETRIES, transcribeAux, h1]
  · intro sizeMB oracle resp hs h1
    simp [transcribeAudio, hsize sizeMB hs, MAX_RETRIES, transcribeAux, h1]
  · intro sizeMB oracle st₁ m₁ resp hs h1 hne h2
    simp [transcribeAudio, hsize sizeMB hs, MAX_RETRIES, transcribeAux, h1, hne, h2]
  · intro sizeMB oracle st₁ st₂ m₁ m₂ resp hs h1 hne₁ h2 hne₂ h3
    simp [transcribeAudio, hsize sizeMB hs, MAX_RETRIES, transcribeAux,
      h1, hne₁, h2, hne₂, h3]
  · intro sizeMB oracle st₁ m₁ m₂ hs h1 hne₁ h2
    simp [transcribeAudio, hsize sizeMB hs, MAX_RETRIES, transcribeAux, h1, hne₁, h2]
  · intro sizeMB oracle st₁ st₂ st₃ m₁ m₂ m₃ hs h1 hne₁ h2 hne₂ h3 hne₃
    simp [transcribeAudio, hsize sizeMB hs, MAX_RETRIES, transcribeAux,
      h1, hne₁, h2, hne₂, h3, hne₃]
  · intro attempt h1
    have : attempt + 1 - 1 = (attempt - 1) + 1 := by omega
    rw [retryDelayMs, retryDelayMs, this, pow_succ]
    ring

/-- C7 witness: a 400 on the first call is raised after exactly one
attempt. -/
theorem transcribeAudio_retry_policy_witness :
    transcribeAudio true true 1 rejectingOracle = .badRequest "bad format" 1 :=
  transcribeAudio_retry_policy.1 1 rejectingOracle "bad format" (by norm_num) rfl

/-! ## C8 : one output record per segment, anchors preserved -/

/-- Lengths and timeline anchors through the `translateSegments` loop. -/
theorem translateSegmentsGo_anchors (oracle : ℕ → Except String String) :
    ∀ (segs : List TranscriptSeg) (k : ℕ),
      (translateSegmentsGo oracle k segs).length = segs.length ∧
      ∀ i : ℕ,
        ((translateSegmentsGo oracle k segs)[i]?).map TranslatedSegment.start =
          (segs[i]?).map TranscriptSeg.start ∧
        ((translateSegmentsGo oracle k segs)[i]?).map TranslatedSegment.stop =
          (segs[i]?).map TranscriptSeg.stop := by
  intro segs
  induction segs with
  | nil => intro k; exact ⟨rfl, fun i => by simp [translateSegmentsGo]⟩
  | cons s rest ih =>
      intro k
      refine ⟨?_, ?_⟩
      · cases ho : oracle k <;>
          simp [translateSegmentsGo, ho, (ih (k + 1)).1]
      · intro i
        cases i with
        | zero => cases ho : oracle k <;> simp [translateSegmentsGo, ho]
        | succ j =>
            have := (ih (k + 1)).2 j
            cases ho : oracle k <;>
              simpa [translateSegmentsGo, ho] using this

/-- Lengths and timeline anchors through the `generateAllSegments` loop. -/
theorem generateAllSegmentsGo_anchors (outputDir : String)
    (oracle : ℕ → Except String ℚ) :
    ∀ (segs : List TranslatedSegment) (k : ℕ),
      (generateAllSegmentsGo outputDir oracle k segs).length = segs.length ∧
      ∀ i : ℕ,
        ((generateAllSegmentsGo outputDir oracle k segs)[i]?).map
            (fun s => s.start) = (segs[i]?).map TranslatedSegment.start ∧
        ((generateAllSegmentsGo outputDir oracle k segs)[i]?).map
            (fun s => s.stop) = (segs[i]?).map TranslatedSegment.stop := by
  intro segs
  induction segs with
  | nil => intro k; exact ⟨rfl, fun i => by simp [generateAllSegmentsGo]⟩
  | cons s rest ih =>
      intro k
      refine ⟨?_, ?_⟩
      · cases ho : oracle k <;>
          simp [generateAllSegmentsGo, ho, (ih (k + 1)).1]
      · intro i
        cases i with
        | zero => cases ho : oracle k <;> simp [generateAllSegmentsGo, ho]
        | succ j =>
            have := (ih (k + 1)).2 j
            cases ho : oracle k <;>
              simpa [generateAllSegmentsGo, ho] using this

/-- The `syncAudioTiming` loop keeps the segment count. -/
theorem syncAudioTimingGo_length (outputDir : String) :
    ∀ (segs : List TtsSegment) (k : ℕ),
      (syncAudioTimingGo outputDir k segs).length = segs.length := by
  intro segs
  induction segs with
  | nil => intro k; rfl
  | cons s rest ih => intro k; simp [syncAudioTimingGo, ih (k + 1)]

/-- C8: each per-segment stage — `translateSegments`, `generateAllSegments`
and `syncAudioTiming` — returns exactly one output record per input segment,
and every output record's `start`/`end` equal the corresponding input's:
the timeline anchors are never mutated, only augmentation fields are
added. -/
theorem perSegment_stages_preserve_anchors :
    (∀ (oracle : ℕ → Except String String) (segs : List TranscriptSeg)
        (out : List TranslatedSegment),
      translateSegments true oracle segs = .ok out →
      out.length = segs.length ∧
      ∀ i : ℕ,
        ((out[i]?).map TranslatedSegment.start = (segs[i]?).map TranscriptSeg.start) ∧
        ((out[i]?).map TranslatedSegment.stop = (segs[i]?).map TranscriptSeg.stop)) ∧
    (∀ (outputDir : String) (oracle : ℕ → Except String ℚ)
        (segs : List TranslatedSegment) (out : List TtsSegment),
      generateAllSegments true outputDir oracle segs = .ok out →
      out.length = segs.length ∧
      ∀ i : ℕ,
        ((out[i]?).map (fun s => s.start) = (segs[i]?).map TranslatedSegment.start) ∧
        ((out[i]?).map (fun s => s.stop) = (segs[i]?).map TranslatedSegment.stop)) ∧
    (∀ (segs : List TtsSegment) (outputDir : String),
      (syncAudioTiming segs outputDir).length = segs.length ∧
      ∀ i : ℕ,
        (((syncAudioTiming segs outputDir)[i]?).map (fun s => s.start) =
          (segs[i]?).map (fun s => s.start)) ∧
        (((syncAudioTiming segs outputDir)[i]?).map (fun s => s.stop) =
          (segs[i]?).map (fun s => s.stop))) := by
  refine ⟨?_, ?_, ?_⟩
  · intro oracle segs out hout
    have : out = translateSegmentsGo oracle 0 segs := by
      simpa [translateSegments] using hout.symm
    subst this
    exact translateSegmentsGo_anchors oracle segs 0
  · intro outputDir oracle segs out hout
    have : out = generateAllSegmentsGo outputDir oracle 0 segs := by
      simpa [generateAllSegments] using hout.symm
    subst this
    exact generateAllSegmentsGo_anchors outputDir oracle segs 0
  · intro segs outputDir
    refine ⟨syncAudioTimingGo_length outputDir segs 0, ?_⟩
    intro i
    rw [syncAudioTiming, syncAudioTimingGo_getElem? outputDir segs 0 i]
    cases hseg : segs[i]? with
    | none => exact ⟨rfl, rfl⟩
    | some s =>
        exact ⟨congrArg some (syncSegment_start_stop outputDir (0 + i) s).1,
          congrArg some (syncSegment_start_stop outputDir (0 + i) s).2⟩

/-- C8 witness: the invariants at a concrete one-segment run of
`translateSegments` with a failing translation oracle (the fallback path),
plus the other two stages at concrete inputs. -/
theorem perSegment_stages_preserve_anchors_witness :
    ((translateSegmentsGo (fun _ => .error "api down") 0 [anchorSeg]).length = 1 ∧
      ((translateSegmentsGo (fun _ => .error "api down") 0 [anchorSeg])[0]?).map
        TranslatedSegment.start = some 2) ∧
    (syncAudioTiming [] "work").length = 0 := by
  constructor
  · have happ :
        translateSegments true (fun _ => .error "api down") [anchorSeg] =
          .ok (translateSegmentsGo (fun _ => .error "api down") 0 [anchorSeg]) := by
      simp [translateSegments]
    obtain ⟨hlen, hanchor⟩ :=
      perSegment_stages_preserve_anchors.1 (fun _ => .error "api down") [anchorSeg]
        (translateSegmentsGo (fun _ => .error "api down") 0 [anchorSeg]) happ
    exact ⟨hlen, ((hanchor 0).1).trans (by simp [anchorSeg])⟩
  · exact (perSegment_stages_preserve_anchors.2.2 [] "work").1

/-! ## C3 : the double-validation-failure fallback -/

/-- C3 counterexample: when both validations fail and the Compositor's own
image operations then fail, the branch returns the original unedited image
path — the claim's "never the original unedited image itself" does not hold,
because `overlayTranslatedText` catches its own failures by returning the
original path (`simple-text-overlay.mjs` lines 135-139). -/
theorem qwenEditBranch_counterexample :
    qwenEditBranch
      { hasQwenKey := true, qwenFirstOk := true, qwenRetryOk := true,
        validationFirst := false, validationRetry := false, compositorOk := false }
      "orig.jpg" "edited.jpg" "retry.jpg" "overlay.jpg" [sampleOverlay] =
      "orig.jpg" := by
  rfl

/-- C3 (amended): when the generative edit is attempted and validation fails
twice in sequence (or the retried edit produces no new file), the final
image is the Text-Overlay Compositor's result applied to the original image
— the composited `fallbackPath` whenever the Compositor's image operations
succeed, and the original path only if the Compositor itself fails
internally; no exception propagates in either case (every callee catches
its own errors). -/
theorem qwenEditBranch_fallback (env : QwenBranchEnv)
    (localImagePath editedPath retryPath fallbackPath : String)
    (overlays : List TextOverlay)
    (hkey : env.hasQwenKey = true) (hov : overlays ≠ [])
    (hed : editedPath ≠ localImagePath) (hrt : retryPath ≠ localImagePath)
    (hfirst : env.qwenFirstOk = true) (hval1 : env.validationFirst = false)
    (hfail2 : env.qwenRetryOk = false ∨ env.validationRetry = false) :
    qwenEditBranch env localImagePath editedPath retryPath fallbackPath overlays =
      overlayTranslatedText env.compositorOk localImagePath overlays fallbackPath ∧
    (env.compositorOk = true → localImagePath ≠ "" → fallbackPath ≠ "" →
      qwenEditBranch env localImagePath editedPath retryPath fallbackPath overlays =
        fallbackPath) := by
  obtain ⟨key, q1, q2, v1, v2, comp⟩ := env
  simp only at hkey hfirst hval1 hfail2
  subst hkey hfirst hval1
  have hovb : overlays.isEmpty = false := by
    cases overlays with
    | nil => exact absurd rfl hov
    | cons a l => rfl
  have hmain :
      qwenEditBranch
        { hasQwenKey := true, qwenFirstOk := true, qwenRetryOk := q2,
          validationFirst := false, validationRetry := v2, compositorOk := comp }
        localImagePath editedPath retryPath fallbackPath overlays =
        overlayTranslatedText comp localImagePath overlays fallbackPath := by
    rcases hfail2 with h2 | h2
    · subst h2
      simp [qwenEditBranch, editImageWithQwen, hovb, hed, hrt]
    · subst h2
      cases q2 <;> simp [qwenEditBranch, editImageWithQwen, hovb, hed, hrt]
  refine ⟨hmain, fun hcomp hl hf => ?_⟩
  subst hcomp
  rw [hmain]
  simp [overlayTranslatedText, hl, hf, hovb]

/-- C3 witness: with the two validations failing and a healthy Compositor,
the branch lands on the compositor output path. -/
theorem qwenEditBranch_fallback_witness :
    qwenEditBranch
      { hasQwenKey := true, qwenFirstOk := true, qwenRetryOk := true,
        validationFirst := false, validationRetry := false, compositorOk := true }
      "orig.jpg" "edited.jpg" "retry.jpg" "overlay.jpg" [sampleOverlay] =
      "overlay.jpg" := by
  exact (qwenEditBranch_fallback _ "orig.jpg" "edited.jpg" "retry.jpg" "overlay.jpg"
      [sampleOverlay] rfl (List.cons_ne_nil _ _) (by decide) (by decide) rfl rfl
      (Or.inr rfl)).2 rfl (by decide) (by decide)

/-! ## C5 : word-wrap width -/

/-- Greedy-wrap invariant: every line the Compositor's `wordWrap` loop
emits is either a single input word or measures within `maxWidth`. -/
theorem wordWrapGo_width (measure : String → ℚ) (maxWidth : ℚ)
    (allWords : List String) :
    ∀ (ws : List String) (cur : String),
      (cur = "" ∨ cur ∈ allWords ∨ measure cur ≤ maxWidth) →
      (∀ w ∈ ws, w ∈ allWords) →
      ∀ line ∈ wordWrapGo measure maxWidth ws cur,
        line ∈ allWords ∨ measure line ≤ maxWidth := by
  intro ws
  induction ws with
  | nil =>
      intro cur hcur _ line hline
      simp only [wordWrapGo] at hline
      by_cases hc : cur = ""
      · rw [if_pos hc] at hline
        exact absurd hline (List.not_mem_nil line)
      · rw [if_neg hc] at hline
        rcases List.mem_singleton.mp hline with rfl
        rcases hcur with h | h | h
        · exact absurd h hc
        · exact Or.inl h
        · exact Or.inr h
  | cons w ws ih =>
      intro cur hcur hsub line hline
      have hsub' : ∀ x ∈ ws, x ∈ allWords :=
        fun x hx => hsub x (List.mem_cons_of_mem w hx)
      have hwmem : w ∈ allWords := hsub w (List.mem_cons_self w ws)
      simp only [wordWrapGo] at hline
      by_cases hcc : cur = ""
      · rw [if_pos hcc] at hline
        rw [if_neg (fun hC : _ ∧ ¬cur = "" => hC.2 hcc)] at hline
        exact ih w (Or.inr (Or.inl hwmem)) hsub' line hline
      · rw [if_neg hcc] at hline
        by_cases hgt : measure (cur ++ " " ++ w) > maxWidth
        · rw [if_pos ⟨hgt, hcc⟩] at hline
          rcases List.mem_cons.mp hline with rfl | hrest
          · rcases hcur with hc | hc | hc
            · exact absurd hc hcc
            · exact Or.inl hc
            · exact Or.inr hc
          · exact ih w (Or.inr (Or.inl hwmem)) hsub' line hrest
        · rw [if_neg (fun hC : _ ∧ _ => hgt hC.1)] at hline
          exact ih (cur ++ " " ++ w) (Or.inr (Or.inr (not_lt.mp hgt))) hsub' line hline

/-- The `wordWrap` corollary of the greedy-wrap invariant. -/
theorem wordWrap_width (measure : String → ℚ) (maxWidth : ℚ) (text : String) :
    ∀ line ∈ wordWrap measure maxWidth text,
      line ∈ jsSplitSpace text ∨ measure line ≤ maxWidth :=
  wordWrapGo_width measure maxWidth (jsSplitSpace text) (jsSplitSpace text) ""
    (Or.inl rfl) (fun _ hw => hw)

/-- The auto-fit loop's lines are the greedy wrap at its final font size. -/
theorem autoFitLoop_lines (measure : ℕ → String → ℚ) (text : String)
    (maxWidth boxHeight : ℚ) :
    ∀ fontSize : ℕ,
      (autoFitLoop measure text maxWidth boxHeight fontSize).2 =
        wordWrap (measure (autoFitLoop measure text maxWidth boxHeight fontSize).1)
          maxWidth text := by
  intro fontSize
  induction fontSize using Nat.strong_induction_on with
  | _ fontSize ih =>
      rw [autoFitLoop]
      split_ifs with h
      · have hlt : fontSize - 1 < fontSize := by
          have := h.2
          simp only [MIN_FONT] at this
          omega
        exact ih (fontSize - 1) hlt
      · rfl

/-- C5 (amended): whenever the Compositor lays out an overlay, every
wrapped line at the final font size is either a single word of the
overlay's text (an unbreakable word, which may exceed the box at any font
size — the shrink loop reacts only to height overflow, not width) or
measures at most the box width minus twice the padding.  The exception in
the original claim is wrong: overwide single-word lines occur at any font
size, including above the configured minimum, and multi-word lines never
overflow even at the minimum. -/
theorem overlayLayout_wrap_width (measure : ℕ → String → ℚ)
    (width height : ℚ) (index : ℕ) (overlay : TextOverlay)
    (layout : OverlayLayout)
    (h : overlayLayout measure width height index overlay = some layout) :
    ∀ line ∈ layout.lines,
      line ∈ jsSplitSpace overlay.english ∨
        measure layout.fontSize line ≤ layout.maxWidth := by
  simp only [overlayLayout] at h
  split_ifs at h with hbox
  rw [Option.some_inj] at h
  subst h
  intro line hline
  simp only at hline ⊢
  rw [autoFitLoop_lines] at hline
  exact wordWrap_width _ _ _ line hline

/-- C5 counterexample: laying out a single long word, the Compositor stops
at font size 20 — strictly above the configured minimum of 10, because the
shrink loop only reacts to height overflow — yet the wrapped line measures
200 against a width budget of 34 = 50 − 2×8.  A line can exceed
(box width − 2×padding) even when the font size has not been reduced to the
minimum, refuting the claim's "except" clause. -/
theorem overlayLayout_width_counterexample :
    ∃ layout, overlayLayout wideMeasure 1000 1000 0 longWordOverlay = some layout ∧
      MIN_FONT < layout.fontSize ∧
      ∃ line ∈ layout.lines, layout.maxWidth < wideMeasure layout.fontSize line := by
  have hsplit : jsSplitSpace "abcdefghij" = ["abcdefghij"] := by decide
  have hlen : ("abcdefghij" : String).toList.length = 10 := by decide
  have hne : ¬("abcdefghij" : String) = "" := by decide
  have hwrap : wordWrap (wideMeasure 20) 34 "abcdefghij" = ["abcdefghij"] := by
    rw [wordWrap, hsplit]
    norm_num [wordWrapGo, wideMeasure, hlen, hne]
  have hfit : autoFitLoop wideMeasure "abcdefghij" 34 40 20 = (20, ["abcdefghij"]) := by
    rw [autoFitLoop]
    simp only [hwrap]
    rw [dif_neg (by norm_num [MIN_FONT])]
  have htn : Int.toNat 20 = 20 := rfl
  refine ⟨{ x := 0, y := 0, boxWidth := 50, boxHeight := 40, maxWidth := 34,
            fontSize := 20, lines := ["abcdefghij"] }, ?_, ?_, "abcdefghij", ?_, ?_⟩
  · rw [overlayLayout]
    norm_num [longWordOverlay, overlayPadding, MIN_FONT, htn, hfit]
  · norm_num [MIN_FONT]
  · simp
  · norm_num [wideMeasure, hlen]

/-- C5 witness: the amended property at a concrete layout — the wrapped
line `"a b"` either is a single input word or fits the width budget. -/
theorem overlayLayout_wrap_width_witness :
    "a b" ∈ jsSplitSpace "a b" ∨ flatMeasure 20 "a b" ≤ 34 := by
  have hsplit : jsSplitSpace "a b" = ["a", "b"] := by decide
  have hm1 : flatMeasure 20 "a" = 1 := by decide
  have hm2 : flatMeasure 20 ("a" ++ " " ++ "b") = 3 := by decide
  have hne : ¬("a" ++ " " ++ "b" : String) = "" := by decide
  have hnea : ¬("a" : String) = "" := by decide
  have hneb : ¬("b" : String) = "" := by decide
  have happend : ("a" ++ " " ++ "b" : String) = "a b" := by decide
  have hm3 : flatMeasure 20 "a b" = 3 := by decide
  have hne2 : ¬("a b" : String) = "" := by decide
  have hwrap : wordWrap (flatMeasure 20) 34 "a b" = ["a b"] := by
    rw [wordWrap, hsplit]
    norm_num [wordWrapGo, hm1, hm2, hm3, hne, hnea, hneb, hne2, happend]
  have hfit : autoFitLoop flatMeasure "a b" 34 40 20 = (20, ["a b"]) := by
    rw [autoFitLoop]
    simp only [hwrap]
    rw [dif_neg (by norm_num [MIN_FONT])]
  have htn : Int.toNat 20 = 20 := rfl
  have hlay : overlayLayout flatMeasure 1000 1000 0 twoWordOverlay =
      some { x := 0, y := 0, boxWidth := 50, boxHeight := 40, maxWidth := 34,
             fontSize := 20, lines := ["a b"] } := by
    rw [overlayLayout]
    norm_num [twoWordOverlay, overlayPadding, MIN_FONT, htn, hfit]
  have happ := overlayLayout_wrap_width flatMeasure 1000 1000 0 twoWordOverlay _
    hlay "a b" (by simp)
  simpa [twoWordOverlay] using happ

/-! ## C4 : the chained defensive JSON parser -/

/-- C4: the classifier-response parser attempts a strict parse, then the
cleanup pass (trailing commas, quote normalization), then the
truncation-repair pass, each only if the previous failed, and returns null
exactly when all three fail; it recovers overlay data from clean JSON, from
JSON with a trailing comma and single quotes (where the strict parse
fails), and from JSON truncated mid-object (where strict and cleanup
parses both fail). -/
theorem callHaikuForOverlays_parse_chain :
    (∀ s : String, callHaikuForOverlays s = none ↔
        JSON_parse (haikuPrefill ++ s) = none ∧
        JSON_parse (cleanupJson (haikuPrefill ++ s)) = none ∧
        JSON_parse (repairTruncatedJson (cleanupJson (haikuPrefill ++ s))) = none) ∧
    (∀ (s : String) (v : Json), JSON_parse (haikuPrefill ++ s) = some v →
        callHaikuForOverlays s = some v) ∧
    (∀ (s : String) (v : Json), JSON_parse (haikuPrefill ++ s) = none →
        JSON_parse (cleanupJson (haikuPrefill ++ s)) = some v →
        callHaikuForOverlays s = some v) ∧
    (∀ (s : String) (v : Json), JSON_parse (haikuPrefill ++ s) = none →
        JSON_parse (cleanupJson (haikuPrefill ++ s)) = none →
        JSON_parse (repairTruncatedJson (cleanupJson (haikuPrefill ++ s))) = some v →
        callHaikuForOverlays s = some v) ∧
    callHaikuForOverlays cleanResp = some (Json.obj [("overlays", Json.arr [])]) ∧
    (JSON_parse (haikuPrefill ++ dirtyResp) = none ∧
      callHaikuForOverlays dirtyResp = some oneOverlayJson) ∧
    (JSON_parse (haikuPrefill ++ truncResp) = none ∧
      JSON_parse (cleanupJson (haikuPrefill ++ truncResp)) = none ∧
      callHaikuForOverlays truncResp = some oneOverlayJson) := by
  refine ⟨?_, ?_, ?_, ?_, by rfl, ⟨by rfl, by rfl⟩, ⟨by rfl, by rfl, by rfl⟩⟩
  · intro s
    cases h1 : JSON_parse (haikuPrefill ++ s) with
    | some v => simp [callHaikuForOverlays, chainedJsonParse, h1]
    | none =>
        cases h2 : JSON_parse (cleanupJson (haikuPrefill ++ s)) with
        | some v => simp [callHaikuForOverlays, chainedJsonParse, h1, h2]
        | none =>
            cases h3 :
                JSON_parse (repairTruncatedJson (cleanupJson (haikuPrefill ++ s))) with
            | some v => simp [callHaikuForOverlays, chainedJsonParse, h1, h2, h3]
            | none => simp [callHaikuForOverlays, chainedJsonParse, h1, h2, h3]
  · intro s v h1
    simp [callHaikuForOverlays, chainedJsonParse, h1]
  · intro s v h1 h2
    simp [callHaikuForOverlays, chainedJsonParse, h1, h2]
  · intro s v h1 h2 h3
    simp [callHaikuForOverlays, chainedJsonParse, h1, h2, h3]

/-- C4 witness: the cleanup pass is exercised on the dirty continuation via
the second-pass clause of the theorem. -/
theorem callHaikuForOverlays_parse_chain_witness :
    callHaikuForOverlays dirtyResp = some oneOverlayJson :=
  callHaikuForOverlays_parse_chain.2.2.1 dirtyResp oneOverlayJson (by rfl) (by rfl)

/-! ## C6 : OCR/overlay classifiers degrade to empty, never raise -/

/-- The batched fallback yields no overlays (or propagates a thrown call)
when every Haiku response fails to parse. -/
theorem batchLoop_all_parse_fail (haiku : ℕ → Except String String)
    (hparse : ∀ k t, haiku k = .ok t → callHaikuForOverlays t = none) :
    ∀ (fuel callIdx : ℕ) (blocks : List TextBlock),
      batchLoop haiku fuel callIdx blocks = .ok [] ∨
      ∃ e, batchLoop haiku fuel callIdx blocks = .error e := by
  intro fuel
  induction fuel with
  | zero => intro callIdx blocks; exact Or.inl rfl
  | succ n ih =>
      intro callIdx blocks
      cases blocks with
      | nil => exact Or.inl rfl
      | cons b bs =>
          cases hk : haiku callIdx with
          | error e => exact Or.inr ⟨e, by simp [batchLoop, hk]⟩
          | ok t =>
              have hp := hparse callIdx t hk
              rcases ih (callIdx + 1) ((b :: bs).drop BATCH_SIZE) with h | ⟨e, h⟩
              · exact Or.inl (by simp [batchLoop, hk, hp, h])
              · exact Or.inr ⟨e, by simp [batchLoop, hk, hp, h]⟩

/-- A body that errs or yields no overlays makes `analyzeImageWithGoogle`
return the empty overlay list (the outer `catch`). -/
theorem analyzeImageWithGoogle_of_body (env : GoogleAnalyzeEnv)
    (h : analyzeImageWithGoogleBody env = .ok [] ∨
        ∃ e, analyzeImageWithGoogleBody env = .error e) :
    analyzeImageWithGoogle env = [] := by
  rcases h with h | ⟨e, h⟩ <;> simp [analyzeImageWithGoogle, h]

/-- C6: neither classifier ever raises to its caller (both total functions
recover from their `Except` bodies), and each failure mode — the
text-detection call throwing, the generative classifier call throwing, or
every JSON parse failing (including all batched retries), and on the Claude
side a thrown call, a failed image read, a response with no extractable
JSON span, or a span that defeats all three parse passes — yields a result
whose overlay list is empty. -/
theorem analyzeImage_failures_yield_empty :
    (∀ (env : GoogleAnalyzeEnv) (e : String), env.vision = .error e →
        analyzeImageWithGoogle env = []) ∧
    (∀ (env : GoogleAnalyzeEnv) (e : String), env.haiku 0 = .error e →
        analyzeImageWithGoogle env = []) ∧
    (∀ env : GoogleAnalyzeEnv,
        (∀ k t, env.haiku k = .ok t → callHaikuForOverlays t = none) →
        analyzeImageWithGoogle env = []) ∧
    (∀ (env : ClaudeAnalyzeEnv) (e : String), env.api = .error e →
        analyzeImageText env = []) ∧
    (∀ env : ClaudeAnalyzeEnv, env.readImageOk = false →
        analyzeImageText env = []) ∧
    (∀ (env : ClaudeAnalyzeEnv) (raw : String), env.api = .ok raw →
        jsMatchBraces "overlays" (stripCodeFences (jsTrim raw)) = none →
        analyzeImageText env = []) ∧
    (∀ (env : ClaudeAnalyzeEnv) (raw matched : String), env.api = .ok raw →
        jsMatchBraces "overlays" (stripCodeFences (jsTrim raw)) = some matched →
        chainedJsonParse matched = none →
        analyzeImageText env = []) := by
  refine ⟨?_, ?_, ?_, ?_, ?_, ?_, ?_⟩
  · intro env e h
    exact analyzeImageWithGoogle_of_body env
      (Or.inr ⟨e, by simp [analyzeImageWithGoogleBody, h]⟩)
  · intro env e h
    refine analyzeImageWithGoogle_of_body env ?_
    cases hv : env.vision with
    | error e2 => exact Or.inr ⟨e2, by simp [analyzeImageWithGoogleBody, hv]⟩
    | ok op =>
        cases op with
        | none => exact Or.inl (by simp [analyzeImageWithGoogleBody, hv])
        | some pages =>
            by_cases h1 : pages.isEmpty
            · exact Or.inl (by simp [analyzeImageWithGoogleBody, hv, h1])
            · by_cases h2 : env.metadataOk
              · by_cases h3 :
                    (extractTextBlocks pages env.imgWidth env.imgHeight).isEmpty
                · exact Or.inl (by simp [analyzeImageWithGoogleBody, hv, h1, h2, h3])
                · by_cases h4 : env.readImageOk
                  · exact Or.inr ⟨e,
                      by simp [analyzeImageWithGoogleBody, hv, h1, h2, h3, h4, h]⟩
                  · exact Or.inr ⟨"readFileSync failed",
                      by simp [analyzeImageWithGoogleBody, hv, h1, h2, h3, h4]⟩
              · exact Or.inr ⟨"sharp metadata failed",
                  by simp [analyzeImageWithGoogleBody, hv, h1, h2]⟩
  · intro env hparse
    refine analyzeImageWithGoogle_of_body env ?_
    cases hv : env.vision with
    | error e2 => exact Or.inr ⟨e2, by simp [analyzeImageWithGoogleBody, hv]⟩
    | ok op =>
        cases op with
        | none => exact Or.inl (by simp [analyzeImageWithGoogleBody, hv])
        | some pages =>
            by_cases h1 : pages.isEmpty
            · exact Or.inl (by simp [analyzeImageWithGoogleBody, hv, h1])
            · by_cases h2 : env.metadataOk
              · by_cases h3 :
                    (extractTextBlocks pages env.imgWidth env.imgHeight).isEmpty
                · exact Or.inl (by simp [analyzeImageWithGoogleBody, hv, h1, h2, h3])
                · by_cases h4 : env.readImageOk
                  · cases hk : env.haiku 0 with
                    | error e => exact Or.inr ⟨e,
                        by simp [analyzeImageWithGoogleBody, hv, h1, h2, h3, h4, hk]⟩
                    | ok t0 =>
                        have hp0 := hparse 0 t0 hk
                        rcases batchLoop_all_parse_fail env.haiku hparse
                            ((extractTextBlocks pages env.imgWidth env.imgHeight).length + 1) 1
                            (extractTextBlocks pages env.imgWidth env.imgHeight)
                          with hb | ⟨e, hb⟩
                        · have hbody : analyzeImageWithGoogleBody env =
                              mapOverlaysStep
                                (extractTextBlocks pages env.imgWidth env.imgHeight)
                                (Json.obj [("overlays", Json.arr [])]) := by
                            simp [analyzeImageWithGoogleBody, hv, h1, h2, h3, h4, hk,
                              hp0, hb]
                          exact Or.inl (hbody.trans rfl)
                        · exact Or.inr ⟨e,
                            by simp [analyzeImageWithGoogleBody, hv, h1, h2, h3, h4,
                              hk, hp0, hb]⟩
                  · exact Or.inr ⟨"readFileSync failed",
                      by simp [analyzeImageWithGoogleBody, hv, h1, h2, h3, h4]⟩
              · exact Or.inr ⟨"sharp metadata failed",
                  by simp [analyzeImageWithGoogleBody, hv, h1, h2]⟩
  · intro env e h
    cases hr : env.readImageOk <;>
      simp [analyzeImageText, analyzeImageTextBody, h, hr]
  · intro env h
    simp [analyzeImageText, analyzeImageTextBody, h]
  · intro env raw h hm
    cases hr : env.readImageOk <;>
      simp [analyzeImageText, analyzeImageTextBody, h, hm, hr]
  · intro env raw matched h hm hp
    cases hr : env.readImageOk <;>
      simp [analyzeImageText, analyzeImageTextBody, h, hm, hp, hr]

/-- C6 witness: a thrown Vision call and a thrown Claude call both produce
the empty overlay list. -/
theorem analyzeImage_failures_yield_empty_witness :
    analyzeImageWithGoogle downGoogleEnv = [] ∧ analyzeImageText downClaudeEnv = [] :=
  ⟨analyzeImage_failures_yield_empty.1 downGoogleEnv "UNAVAILABLE" rfl,
    analyzeImage_failures_yield_empty.2.2.2.1 downClaudeEnv "overloaded" rfl⟩

/-! ## C9 : the size filter's AND semantics -/

/-- The extraction loop is exactly a filter by `keepBlock` followed by
consecutive index stamping. -/
theorem extractTextBlocksGo_eq_filter (imgWidth imgHeight : ℚ) :
    ∀ (paras : List VisionParagraph) (idx : ℕ),
      extractTextBlocksGo imgWidth imgHeight paras idx =
        stampBlocks imgWidth imgHeight idx
          (paras.filter (keepBlock imgWidth imgHeight)) := by
  intro paras
  induction paras with
  | nil => intro idx; rfl
  | cons p rest ih =>
      intro idx
      by_cases h :
          (mkTextBlock imgWidth imgHeight idx p).width_percent < MIN_WIDTH_PERCENT ∧
          (mkTextBlock imgWidth imgHeight idx p).height_percent < MIN_HEIGHT_PERCENT
      · have hk : keepBlock imgWidth imgHeight p = false := by
          simp only [keepBlock, decide_eq_false_iff_not, not_not]
          exact h
        simp only [extractTextBlocksGo, if_pos h, List.filter_cons, hk,
          Bool.false_eq_true, if_false, ih]
      · have hk : keepBlock imgWidth imgHeight p = true := by
          simp only [keepBlock, decide_eq_true_eq]
          exact h
        simp only [extractTextBlocksGo, if_neg h, List.filter_cons, hk, if_true,
          stampBlocks, ih]

/-- C9: a detected paragraph block is discarded by the size filter if and
only if its width percentage is below `MIN_WIDTH_PERCENT = 2` *and* its
height percentage is below `MIN_HEIGHT_PERCENT = 1.5` (AND semantics):
`textBlocks` is exactly the `keepBlock` filter of the paragraphs, stamped
with consecutive indices; and a block that is tiny in only one dimension is
kept as a candidate. -/
theorem sizeFilter_and_semantics :
    (∀ (pages : List VisionPage) (imgWidth imgHeight : ℚ),
      extractTextBlocks pages imgWidth imgHeight =
        stampBlocks imgWidth imgHeight 0
          ((flattenParagraphs pages).filter (keepBlock imgWidth imgHeight))) ∧
    (∀ (imgWidth imgHeight : ℚ) (p : VisionParagraph),
      keepBlock imgWidth imgHeight p = false ↔
        ((p.v2x.getD 0 - p.v0x.getD 0) / imgWidth * 100 < MIN_WIDTH_PERCENT ∧
         (p.v2y.getD 0 - p.v0y.getD 0) / imgHeight * 100 < MIN_HEIGHT_PERCENT)) ∧
    (∀ (imgWidth imgHeight : ℚ) (p : VisionParagraph),
      MIN_WIDTH_PERCENT ≤ (p.v2x.getD 0 - p.v0x.getD 0) / imgWidth * 100 ∨
      MIN_HEIGHT_PERCENT ≤ (p.v2y.getD 0 - p.v0y.getD 0) / imgHeight * 100 →
      keepBlock imgWidth imgHeight p = true) := by
  refine ⟨?_, ?_, ?_⟩
  · intro pages imgWidth imgHeight
    exact extractTextBlocksGo_eq_filter imgWidth imgHeight (flattenParagraphs pages) 0
  · intro imgWidth imgHeight p
    simp only [keepBlock, decide_eq_false_iff_not, not_not]
  · intro imgWidth imgHeight p hbig
    simp only [keepBlock, decide_eq_true_eq]
    rcases hbig with hb | hb
    · exact fun hc => absurd hc.1 (not_lt.mpr hb)
    · exact fun hc => absurd hc.2 (not_lt.mpr hb)

/-- C9 witness: on a 100×100 image, the 1%-wide but 50%-tall block passes
the filter because only one dimension is tiny. -/
theorem sizeFilter_and_semantics_witness :
    keepBlock 100 100 tallThinParagraph = true := by
  refine sizeFilter_and_semantics.2.2 100 100 tallThinParagraph (Or.inr ?_)
  norm_num [tallThinParagraph, MIN_HEIGHT_PERCENT]

/-! ## C10 : validation success semantics -/

/-- C10 counterexample: a response that parses successfully and reports
`all_translated: true`, no `quality_score` below 80 (the field is absent)
and no gibberish still yields `success = false`, because JavaScript's
`undefined >= 80` is false.  The claim's "only when" list misses the
absent/non-numeric-score case. -/
theorem validateImageTranslation_counterexample :
    (validateImageTranslation [sampleOverlay] (.ok validationNoScoreResp)).success
        = false ∧
    JSON_parse validationNoScoreResp =
        some (Json.obj [("all_translated", Json.bool true)]) ∧
    getField (Json.obj [("all_translated", Json.bool true)]) "all_translated" =
        some (Json.bool true) ∧
    getField (Json.obj [("all_translated", Json.bool true)]) "quality_score" = none ∧
    getField (Json.obj [("all_translated", Json.bool true)]) "gibberish_detected" =
        none :=
  ⟨rfl, rfl, rfl, rfl, rfl⟩

/-- C10 (amended): `validateImageTranslation` never raises; with no
overlays, on any thrown call, on a response with no extractable JSON span,
and on an unparseable span it reports `success = true`; and on a
successfully parsed response it reports `success = false` exactly when the
response fails to present `all_translated` as truthy, fails to present a
`quality_score` that compares at least 80 under JavaScript coercion (in
particular when the field is absent or non-numeric), or presents
`gibberish_detected` as truthy. -/
theorem validateImageTranslation_success_semantics :
    (∀ apiOutcome : Except String String,
      validateImageTranslation [] apiOutcome =
        { success := true, reason := "No overlays to validate" }) ∧
    (∀ (overlays : List TextOverlay) (e : String), overlays.isEmpty = false →
      (validateImageTranslation overlays (.error e)).success = true) ∧
    (∀ (overlays : List TextOverlay) (responseText : String),
      overlays.isEmpty = false →
      jsMatchBraces "all_translated" responseText = none →
      (validateImageTranslation overlays (.ok responseText)).success = true) ∧
    (∀ (overlays : List TextOverlay) (responseText matched : String),
      overlays.isEmpty = false →
      jsMatchBraces "all_translated" responseText = some matched →
      JSON_parse matched = none →
      (validateImageTranslation overlays (.ok responseText)).success = true) ∧
    (∀ (overlays : List TextOverlay) (responseText matched : String)
        (validation : Json),
      overlays.isEmpty = false →
      jsMatchBraces "all_translated" responseText = some matched →
      JSON_parse matched = some validation →
      ((validateImageTranslation overlays (.ok responseText)).success = false ↔
        (jsTruthy (getField validation "all_translated") = false ∨
         jsGE (getField validation "quality_score") 80 = false ∨
         jsTruthy (getField validation "gibberish_detected") = true))) := by
  refine ⟨?_, ?_, ?_, ?_, ?_⟩
  · intro apiOutcome
    rfl
  · intro overlays e hov
    simp [validateImageTranslation, hov]
  · intro overlays responseText hov hm
    simp [validateImageTranslation, hov, hm]
  · intro overlays responseText matched hov hm hp
    simp [validateImageTranslation, hov, hm, hp]
  · intro overlays responseText matched validation hov hm hp
    simp only [validateImageTranslation, hov, Bool.false_eq_true, if_false, hm, hp]
    cases hA : jsTruthy (getField validation "all_translated") <;>
      cases hB : jsGE (getField validation "quality_score") 80 <;>
        cases hC : jsTruthy (getField validation "gibberish_detected") <;>
          simp

/-- C10 witness: a fully-populated passing response yields
`success = true` through the amended characterization. -/
theorem validateImageTranslation_success_semantics_witness :
    (validateImageTranslation [sampleOverlay] (.ok validationGoodResp)).success
      = true := by
  have h := validateImageTranslation_success_semantics.2.2.2.2 [sampleOverlay]
    validationGoodResp validationGoodResp validationGoodJson rfl (by rfl) (by rfl)
  have hA : jsTruthy (getField validationGoodJson "all_translated") = true := by rfl
  have hB : jsGE (getField validationGoodJson "quality_score") 80 = true := by rfl
  have hC : jsTruthy (getField validationGoodJson "gibberish_detected") = false := by rfl
  rcases Bool.eq_false_or_eq_true
      ((validateImageTranslation [sampleOverlay] (.ok validationGoodResp)).success)
    with ht | hf
  · exact ht
  · exfalso
    rcases h.mp hf with hx | hx | hx
    · rw [hA] at hx; exact Bool.noConfusion hx
    · rw [hB] at hx; exact Bool.noConfusion hx
    · rw [hC] at hx; exact Bool.noConfusion hx

end ShanghaiDiscovery
